import Mathlib

/-!
# go-hit: the generic comparison engine and the clear chains

A shallow embedding of `internal/helpers.go`, `internal/minitest/minitest.go`,
`expect_specific_header.go`, `expect_headers.go`, `clear_send.go` and
`clear_expect_body_json.go`.

Go values that travel through `interface{}` parameters are modelled by the
inductive type `Value`; `reflect.ValueOf` is the identity on it.  A panic is
modelled by `Except.error` carrying the panic message.  The third-party
packages the code calls (go-convert, go-cmp, deepcopy, pp, vtclean, fmt) are
not part of the repository: they are the fields of the structure `Lib`, and
every theorem holds for every value of that structure.
-/

namespace GoHit

/-- The `reflect.Kind`s of the modelled values.  The sized integer, unsigned,
`float32` and complex kinds are treated by every function below exactly like
`Int` and `Float64` and are left out. -/
inductive Kind
  | Invalid
  | Bool
  | Int
  | Float64
  | Array
  | Chan
  | Func
  | Interface
  | Map
  | Ptr
  | Slice
  | String
  | Struct
  deriving DecidableEq, Repr

/-- A Go value as seen through `interface{}` and `reflect.Value`.

* `nil` is the nil interface; `reflect.ValueOf(nil)` is the zero `reflect.Value`.
* `float64` carries the IEEE-754 bit pattern.
* the elements of `array`, `slice`, `map` and `struct` are what
  `Index(i).Interface()`, `MapKeys()[i].Interface()` and `Field(i).Interface()` return.
* `nilPtr` is a typed nil pointer, `ptr addr target` a pointer with its address and pointee.
* `iface held` is a variable of interface type reached through a pointer
  (`*interface{}`); `iface nil` is such a variable holding nil.
* `chan` carries an identity and the number of queued elements, `func` an identity. -/
inductive Value
  | nil
  | bool (b : Bool)
  | int (n : Int)
  | float64 (bits : Nat)
  | str (s : String)
  | array (elems : List Value)
  | slice (elems : List Value)
  | map (entries : List (Value × Value))
  | struct (typeName : String) (fields : List (String × Value))
  | nilPtr
  | ptr (addr : Nat) (target : Value)
  | iface (held : Value)
  | chan (id : Nat) (queued : Nat)
  | func (id : Nat)
  deriving Repr, Inhabited

namespace Value

/-- The method `reflect.Value.Kind`. -/
def Kind : Value → GoHit.Kind
  | .nil => .Invalid
  | .bool _ => .Bool
  | .int _ => .Int
  | .float64 _ => .Float64
  | .str _ => .String
  | .array _ => .Array
  | .slice _ => .Slice
  | .map _ => .Map
  | .struct _ _ => .Struct
  | .nilPtr => .Ptr
  | .ptr _ _ => .Ptr
  | .iface _ => .Interface
  | .chan _ _ => .Chan
  | .func _ => .Func

/-- The method `reflect.Value.IsValid`: false exactly for the zero `reflect.Value`. -/
def IsValid : Value → Bool
  | .nil => false
  | _ => true

/-- The comparison `x == nil` for `x` of type `interface{}`. -/
def isNil : Value → Bool
  | .nil => true
  | _ => false

/-- The method `reflect.Value.Elem` on a pointer or interface: the pointee or the held
value, the zero `reflect.Value` for a nil pointer or a nil interface.  (On the other
kinds `Elem` panics; `GetElem` never calls it there.) -/
def Elem : Value → Value
  | .ptr _ t => t
  | .iface h => h
  | _ => .nil

/-- The method `reflect.Value.Len` on the kinds for which it is defined: the number of
elements of an array, slice or map, of queued elements of a channel, of bytes of a string. -/
def Len : Value → Nat
  | .str s => s.utf8ByteSize
  | .array xs => xs.length
  | .slice xs => xs.length
  | .map es => es.length
  | .chan _ n => n
  | _ => 0

/-- The method `reflect.Value.String` on a value of kind `String`; on the other kinds
Go returns the text `<T Value>`, which no caller below looks at. -/
def GoString : Value → String
  | .str s => s
  | _ => "<Value>"

/-- The method `reflect.Value.MapKeys` followed by `Interface()` on each key. -/
def MapKeys : Value → List Value
  | .map es => es.map Prod.fst
  | _ => []

/-- The elements `s.Index(i).Interface()` for `i < s.Len()`. -/
def Elems : Value → List Value
  | .slice xs => xs
  | .array xs => xs
  | _ => []

/-- The names `st.Type().Field(i).Name` for `i < st.NumField()`. -/
def FieldNames : Value → List String
  | .struct _ fs => fs.map Prod.fst
  | _ => []

end Value

/-- A `float64` bit pattern is a NaN: exponent all ones, mantissa not zero. -/
def float64IsNaN (bits : Nat) : Bool :=
  (bits / 2 ^ 52) % 2 ^ 11 == 2047 && bits % 2 ^ 52 != 0

/-- The Go comparison `a == b` of two `float64`: a NaN differs from everything, the two
zeros are equal, otherwise the bit patterns decide. -/
def float64Eq (a b : Nat) : Bool :=
  !float64IsNaN a && !float64IsNaN b && (a == b || (a % 2 ^ 63 == 0 && b % 2 ^ 63 == 0))

mutual
/-- The Go comparison `a == b` of two interface values: both nil, or identical dynamic
types and equal dynamic values.  Pointers, channels compare by identity, arrays and
structs field by field; slices, maps and functions are not comparable (they never are
map keys) and give `false` here. -/
def goEq : Value → Value → Bool
  | .nil, .nil => true
  | .bool a, .bool b => a == b
  | .int a, .int b => a == b
  | .float64 a, .float64 b => float64Eq a b
  | .str a, .str b => a == b
  | .array xs, .array ys => goEqList xs ys
  | .struct n fs, .struct m gs => n == m && goEqFields fs gs
  | .nilPtr, .nilPtr => true
  | .ptr a _, .ptr b _ => a == b
  | .iface a, .iface b => goEq a b
  | .chan a _, .chan b _ => a == b
  | _, _ => false
/-- Elementwise `goEq` of two arrays of the same length. -/
def goEqList : List Value → List Value → Bool
  | [], [] => true
  | x :: xs, y :: ys => goEq x y && goEqList xs ys
  | _, _ => false
/-- Fieldwise `goEq` of two structs with the same field names. -/
def goEqFields : List (String × Value) → List (String × Value) → Bool
  | [], [] => true
  | (f, x) :: xs, (g, y) :: ys => f == g && goEq x y && goEqFields xs ys
  | _, _ => false
end

/-- The functions of other packages that the repository calls.  A Go `error` is
modelled by `Option String`: `none` is the nil error, `some msg` an error whose
`Error()` text is `msg`.  A conversion into `dst` returns the content of `dst` after the
call together with the error. -/
structure Lib where
  /-- The call `convert.Convert(src, &dst)` of github.com/Eun/go-convert with `dst` a
  `string` variable holding the empty string. -/
  convertString : Value → String × Option String
  /-- The call `convert.Convert(src, &dst)` with `dst` an `interface{}` variable that
  holds the second argument. -/
  convert : Value → Value → Value × Option String
  /-- The call `converter.Convert(src, &dst)` on the package-level converter of package
  `hit`, with `dst` an `interface{}` variable that holds the second argument. -/
  converterConvert : Value → Value → Value × Option String
  /-- The function `deepcopy.Copy` of github.com/mohae/deepcopy. -/
  deepcopyCopy : Value → Value
  /-- The function `cmp.Equal` of github.com/google/go-cmp. -/
  cmpEqual : Value → Value → Bool
  /-- The function `cmp.Diff`. -/
  cmpDiff : Value → Value → String
  /-- The rendering `vtclean.Clean(pp.Sprint(x), false)`. -/
  ppSprint : Value → String
  /-- The formatting `fmt.Sprintf(format, args...)`. -/
  sprintf : String → List Value → String
  /-- The function `strings.TrimSpace`. -/
  trimSpace : String → String
  /-- The helper `Format` of package minitest (its file is not among the sources). -/
  format : String → String → String
  /-- The helper `trimLeftSpaces` of package minitest (its file is not among the sources). -/
  trimLeftSpaces : String → String
  /-- The function `textproto.CanonicalMIMEHeaderKey`. -/
  canonicalMIMEHeaderKey : String → String

/-- The function `reflect.ValueOf`: a `Value` is its own reflection. -/
def ValueOf (v : Value) : Value := v

/-- The function `strings.Contains` on the characters of the two strings: `substr`
starts at some position of `s`. -/
def stringsContainsAux : List Char → List Char → Bool
  | [], substr => substr.isEmpty
  | c :: cs, substr => substr.isPrefixOf (c :: cs) || stringsContainsAux cs substr

/-- The function `strings.Contains`. -/
def stringsContains (s substr : String) : Bool :=
  stringsContainsAux s.data substr.data

namespace internal

/-- The function `GetElem` of internal/helpers.go: the loop
`for r.IsValid() && r.Kind() == reflect.Ptr || r.Kind() == reflect.Interface { r = r.Elem() }`
by recursion on the pointee. -/
def GetElem : Value → Value
  | .ptr _ t => GetElem t
  | .iface h => GetElem h
  | .nilPtr => .nil
  | r => r

/-- The function `GetValue` of internal/helpers.go. -/
def GetValue (v : Value) : Value :=
  GetElem (ValueOf v)

/-- The function `stringContains` of internal/helpers.go. -/
def stringContains (lib : Lib) (s : String) (needle : Value) : Bool :=
  let (needleStr, err) := lib.convertString needle
  if err.isSome then false
  else stringsContains s needleStr

/-- The loop of `sliceContains` over the elements `s.Index(i).Interface()`. -/
def sliceContainsLoop (lib : Lib) (needle : Value) : List Value → Bool
  | [] => false
  | v :: rest =>
    let needleValue := lib.deepcopyCopy v
    let (needleValue, err) := lib.convert needle needleValue
    if err.isSome then sliceContainsLoop lib needle rest
    else if lib.cmpEqual v needleValue then true
    else sliceContainsLoop lib needle rest

/-- The function `sliceContains` of internal/helpers.go. -/
def sliceContains (lib : Lib) (s : Value) (needle : Value) : Bool :=
  sliceContainsLoop lib needle s.Elems

/-- The loop of `mapContains` over the keys `key.Interface()`. -/
def mapContainsLoop (lib : Lib) (needle : Value) : List Value → Bool
  | [] => false
  | v :: rest =>
    let needleValue := lib.deepcopyCopy v
    let (needleValue, err) := lib.convert needle needleValue
    if err.isSome then mapContainsLoop lib needle rest
    else if goEq v needleValue then true
    else mapContainsLoop lib needle rest

/-- The function `mapContains` of internal/helpers.go. -/
def mapContains (lib : Lib) (m : Value) (needle : Value) : Bool :=
  mapContainsLoop lib needle m.MapKeys

/-- The loop of `structContains` over the names `st.Type().Field(i).Name`. -/
def structContainsLoop (lib : Lib) (needle : Value) : List String → Bool
  | [] => false
  | v :: rest =>
    let needleValue := lib.deepcopyCopy (.str v)
    let (needleValue, err) := lib.convert needle needleValue
    if err.isSome then structContainsLoop lib needle rest
    else if goEq (.str v) needleValue then true
    else structContainsLoop lib needle rest

/-- The function `structContains` of internal/helpers.go. -/
def structContains (lib : Lib) (st : Value) (needle : Value) : Bool :=
  structContainsLoop lib needle st.FieldNames

/-- The function `Contains` of internal/helpers.go. -/
def Contains (lib : Lib) (heystack needle : Value) : Bool :=
  if heystack.isNil && needle.isNil then true
  else if heystack.isNil || needle.isNil then false
  else
    let hey := ValueOf heystack
    match hey.Kind with
    | .String => stringContains lib hey.GoString needle
    | .Slice => sliceContains lib hey needle
    | .Map => mapContains lib hey needle
    | .Struct => structContains lib hey needle
    | _ => false

end internal

namespace minitest

/-- The function `formatMessage` of minitest.go.  Its inner `panicNow` call has no
custom message, so it panics with exactly the text given. -/
def formatMessage (lib : Lib) (customMessageAndArgs : List Value) : Except String String :=
  match customMessageAndArgs with
  | [] => .ok ""
  | .str s :: args => .ok (lib.trimSpace (lib.sprintf s args))
  | _ :: _ => .error "expected custom message to be a string"

/-- The function `panicNow` of minitest.go: it never returns normally; the panic value
is the formatted custom message on a line of its own followed by `err`. -/
def panicNow (lib : Lib) (err : String) (customMessageAndArgs : List Value) :
    Except String Unit :=
  match formatMessage lib customMessageAndArgs with
  | .error p => .error p
  | .ok detail =>
    let sb := if detail != "" then detail ++ "\n" else ""
    let sb := if err != "" then sb ++ err else sb
    .error sb

/-- The function `stringJoin` of minitest.go. -/
def stringJoin (seperator : String) (a : List String) : String :=
  seperator.intercalate a

/-- The function `actualExpectedDiff` of minitest.go. -/
def actualExpectedDiff (lib : Lib) (actual expected : Value) : String :=
  let sb := lib.sprintf "expected:\t%+v\n" [expected]
  let sb := sb ++ lib.sprintf "actual:  \t%+v\n" [actual]
  let diff := lib.cmpDiff expected actual
  if diff != "" then
    sb ++ lib.sprintf (lib.format "diff:    " (lib.trimLeftSpaces diff)) []
  else sb

/-- The function `NoError` of minitest.go; `none` is the nil error. -/
def NoError (lib : Lib) (err : Option String) (customMessageAndArgs : List Value) :
    Except String Unit :=
  match err with
  | some e => panicNow lib e customMessageAndArgs
  | none => .ok ()

/-- The function `Equal` of minitest.go. -/
def Equal (lib : Lib) (expected actual : Value) (customMessageAndArgs : List Value) :
    Except String Unit :=
  if !lib.cmpEqual expected actual then
    panicNow lib (stringJoin "\n" ["Not equal", actualExpectedDiff lib actual expected])
      customMessageAndArgs
  else .ok ()

/-- The function `Contains` of minitest.go. -/
def Contains (lib : Lib) (object contains : Value) (customMessageAndArgs : List Value) :
    Except String Unit :=
  if !internal.Contains lib object contains then
    panicNow lib (lib.ppSprint object ++ " does not contain " ++ lib.ppSprint contains)
      customMessageAndArgs
  else .ok ()

/-- The function `Empty` of minitest.go. -/
def Empty (lib : Lib) (object : Value) (customMessageAndArgs : List Value) :
    Except String Unit :=
  let v := internal.GetValue object
  match v.Kind with
  | .Array | .Chan | .Map | .Slice | .String =>
    let l := v.Len
    if l != 0 then
      panicNow lib (lib.ppSprint object ++ " should be empty, but has " ++ toString l ++
        " item(s)") customMessageAndArgs
    else .ok ()
  | _ => panicNow lib ("called Len() on " ++ lib.ppSprint object) []

/-- The function `Len` of minitest.go. -/
def Len (lib : Lib) (object : Value) (length : Int) (customMessageAndArgs : List Value) :
    Except String Unit :=
  let v := internal.GetValue object
  match v.Kind with
  | .Array | .Chan | .Map | .Slice | .String =>
    let l : Int := v.Len
    if l != length then
      panicNow lib (lib.ppSprint object ++ " should have " ++ toString length ++
        " item(s), but has " ++ toString l) customMessageAndArgs
    else .ok ()
  | _ => panicNow lib ("called Len() on " ++ lib.ppSprint object) []

end minitest

namespace hit

/-- The type `http.Header`: the canonical header names with their values. -/
abbrev Header := List (String × List String)

/-- The method `http.Header.Get`: the first value stored under the canonical form of
`key`, the empty string when there is none. -/
def Header.Get (lib : Lib) (h : Header) (key : String) : String :=
  match h.lookup (lib.canonicalMIMEHeaderKey key) with
  | some (v :: _) => v
  | _ => ""

/-- The part of `Hit` the header expectations read: `hit.Response().Header`. -/
structure Hit where
  /-- The headers of the response. -/
  responseHeader : Header

/-- The type `Callback`: a function on the run context that may panic. -/
abbrev Callback := Hit → Except String Unit

/-- The interface `IStep`, reduced to its method `exec`; the error is the diagnostic. -/
structure IStep where
  /-- The method `exec`. -/
  exec : Hit → Except String Unit

/-- The interface `IExpect`, reduced to the method the header expectations call. -/
structure IExpect where
  /-- The method `Custom`. -/
  Custom : Callback → IStep

/-- Modelled from the spec: the `Custom` method of the expect chain (expect.go is not
among the sources).  The step performs exactly the one assertion of its callback; it
fails when the callback panics, and the diagnostic carries the panic text. -/
def defaultExpect : IExpect :=
  ⟨fun f => ⟨fun hit => f hit⟩⟩

/-- The struct `expectSpecificHeader`. -/
structure expectSpecificHeader where
  /-- The name of the header. -/
  header : String
  /-- The expect chain the steps are built on. -/
  expect : IExpect

/-- The function `newExpectSpecificHeader`. -/
def newExpectSpecificHeader (expect : IExpect) (header : String) : expectSpecificHeader :=
  { expect := expect, header := header }

/-- The method `expectSpecificHeader.Contains`. -/
def expectSpecificHeader.Contains (lib : Lib) (hdr : expectSpecificHeader) (v : String) :
    IStep :=
  hdr.expect.Custom fun hit =>
    minitest.Contains lib (.str (Header.Get lib hit.responseHeader hdr.header)) (.str v) []

/-- The method `expectSpecificHeader.OneOf`; `values` is the variadic `[]interface{}`. -/
def expectSpecificHeader.OneOf (lib : Lib) (hdr : expectSpecificHeader)
    (values : List Value) : IStep :=
  hdr.expect.Custom fun hit =>
    minitest.Contains lib (.slice values)
      (.str (Header.Get lib hit.responseHeader hdr.header)) []

/-- The method `expectSpecificHeader.Empty`. -/
def expectSpecificHeader.Empty (lib : Lib) (hdr : expectSpecificHeader) : IStep :=
  hdr.expect.Custom fun hit =>
    minitest.Empty lib (.str (Header.Get lib hit.responseHeader hdr.header)) []

/-- The method `expectSpecificHeader.Len`. -/
def expectSpecificHeader.Len (lib : Lib) (hdr : expectSpecificHeader) (size : Int) :
    IStep :=
  hdr.expect.Custom fun hit =>
    minitest.Len lib (.str (Header.Get lib hit.responseHeader hdr.header)) size []

/-- The method `expectSpecificHeader.Equal`. -/
def expectSpecificHeader.Equal (lib : Lib) (hdr : expectSpecificHeader) (v : Value) :
    IStep :=
  hdr.expect.Custom fun hit =>
    let compareData := v
    let (compareData, err) :=
      lib.converterConvert (.str (Header.Get lib hit.responseHeader hdr.header)) compareData
    do
      minitest.NoError lib err []
      minitest.Equal lib v compareData []

end hit

/-! ## Paths and the clear chains -/

namespace internal

/-- The loop of `StringSliceHasPrefixSlice`: `remaining` iterations starting at index `i`,
each comparing `haystack[i]` with `needle[i]`. -/
def StringSliceHasPrefixSliceLoop (haystack needle : List String) : Nat → Nat → Bool
  | 0, _ => true
  | remaining + 1, i =>
    if haystack[i]? != needle[i]? then false
    else StringSliceHasPrefixSliceLoop haystack needle remaining (i + 1)

/-- The function `StringSliceHasPrefixSlice` of internal/helpers.go. -/
def StringSliceHasPrefixSlice (haystack needle : List String) : Bool :=
  let haySize := haystack.length
  let needleSize := needle.length
  if needleSize > haySize then false
  else
    let haySize := needleSize
    StringSliceHasPrefixSliceLoop haystack needle haySize 0

/-- Modelled from the spec: the helper `GetLastArgument` of package internal (its
definition is not among the sources).  It detects the trailing value a clear chain
received: the last element of `params` and `true`, or nil and `false` when `params` is
empty. -/
def GetLastArgument (params : List Value) : Value × Bool :=
  match params.getLast? with
  | some v => (v, true)
  | none => (.nil, false)

end internal

namespace hit

/-- A segment of a path: the name of the call and the arguments passed to it. -/
structure pathPart where
  /-- The name of the builder method. -/
  Func : String
  /-- The arguments of the call. -/
  Arguments : List Value

/-- The type `clearPath`: the ordered segments that lead to a step. -/
abbrev clearPath := List pathPart

/-- Modelled from the spec: the method `clearPath.Push` (the file that defines
`clearPath` is not among the sources).  It returns a new path, the old segments followed
by the segment of `name` and `arguments`; the old path is not changed. -/
def clearPath.Push (cleanPath : clearPath) (name : String) (arguments : List Value) :
    clearPath :=
  cleanPath ++ [⟨name, arguments⟩]

/-- The names of the segments of a path. -/
def clearPath.names (cleanPath : clearPath) : List String :=
  cleanPath.map pathPart.Func

/-- Deep equality of two argument lists in the wording of the spec: as many arguments on
both sides, equal one by one by `argEqual`. -/
def argumentsDeepEqual (argEqual : Value → Value → Bool) : List Value → List Value → Bool
  | [], [] => true
  | a :: stepArgs, b :: supplied =>
    argEqual a b && argumentsDeepEqual argEqual stepArgs supplied
  | _, _ => false

/-- Modelled from the spec: partial argument matching at the final segment of a clear
path (the matching code is not among the sources).  If the clear call supplied zero
arguments, the step matches regardless of its arguments; if it supplied arguments, only
a step whose arguments at that segment are deep-equal to the supplied ones matches. -/
def argumentsMatch (argEqual : Value → Value → Bool) (stepArgs supplied : List Value) :
    Bool :=
  match supplied with
  | [] => true
  | _ :: _ => argumentsDeepEqual argEqual stepArgs supplied

/-- Modelled from the spec: the test `clearPath.Contains` that decides whether a step
with path `cleanPath` is addressed by the clear path `needle` (not among the sources).
The names of `needle` are a component-wise prefix of the names of `cleanPath`, and at
the final segment of `needle` the arguments match by `argumentsMatch`. -/
def clearPath.Contains (argEqual : Value → Value → Bool) (cleanPath needle : clearPath) :
    Bool :=
  internal.StringSliceHasPrefixSlice cleanPath.names needle.names &&
    match needle.getLast?, cleanPath[needle.length - 1]? with
    | some last, some part => argumentsMatch argEqual part.Arguments last.Arguments
    | some _, none => false
    | none, _ => true

/-- The type `StepTime`; the sources name `CleanStep` only, the other phases are
numbered. -/
inductive StepTime
  | CleanStep
  | other (phase : Nat)
  deriving DecidableEq, Repr

/-- What the clear engine sees of a declared step in `hit.Steps()`: its identity and
the result of its method `clearPath()`, `none` for a step without path. -/
structure declaredStep where
  /-- The identity of the step. -/
  id : Nat
  /-- The path of the step. -/
  ClearPath : Option clearPath

/-- The part of `Hit` the clear steps read and change: the remaining steps, in
declaration order. -/
structure HitSteps where
  /-- The remaining steps. -/
  steps : List declaredStep

/-- The struct `hitStep` (its `Trace` field only decorates diagnostics and is left out).
`Exec` returns the run context after the call and the error, `none` for nil. -/
structure hitStep where
  /-- The phase of the step. -/
  When : StepTime
  /-- The path of the step, `none` for nil. -/
  ClearPath : Option clearPath
  /-- The action of the step. -/
  Exec : HitSteps → HitSteps × Option String

/-- Modelled from the spec: the function `removeSteps` (not among the sources).  It walks
the remaining steps and removes every step whose path is addressed by `path`; a step
without path is never removed, and the steps left keep their order. -/
def removeSteps (argEqual : Value → Value → Bool) (hit : HitSteps) (path : clearPath) :
    HitSteps × Option String :=
  (⟨hit.steps.filter fun step =>
      match step.ClearPath with
      | none => true
      | some p => !clearPath.Contains argEqual p path⟩, none)

/-- Modelled from the spec: the function `removeStep` (not among the sources): a step of
the clear phase that carries `path` and whose action is `removeSteps` on that path. -/
def removeStep (argEqual : Value → Value → Bool) (cleanPath : clearPath) : hitStep :=
  { When := .CleanStep
    ClearPath := some cleanPath
    Exec := fun hit => removeSteps argEqual hit cleanPath }

/-- A callback handed to a clear chain, known by the identity of its function value;
stored in an `interface{}` it is `Value.func`. -/
abbrev CallbackRef := Nat

/-- The interface `IClearExpectBody`.  Its implementation is not among the sources and
no method of it is called by the chains below, so it carries no data. -/
structure IClearExpectBody where

/-- The struct `clearSend` (the `trace` field only decorates diagnostics and is left
out). -/
structure clearSend where
  /-- The path of the chain. -/
  cleanPath : clearPath

/-- The struct `finalClearSend`. -/
structure finalClearSend where
  /-- The embedded `IStep`. -/
  IStep : hitStep
  /-- The fixed message. -/
  message : String

/-- The struct `finalClearSendBody`, as built by `finalClearSend.Body`. -/
structure finalClearSendBody where
  /-- The embedded `IStep`. -/
  IStep : hitStep
  /-- The fixed message. -/
  message : String

/-- The interface `IClearSendBody`: the result of the call `newClearSendBody(path, value)`
(that function is not among the sources, the call is kept with its arguments), or a
`finalClearSendBody`. -/
inductive IClearSendBody
  | newClearSendBody (cleanPath : clearPath) (params : List Value)
  | final (body : finalClearSendBody)

/-- The interface `IClearSend`: a `clearSend` or a `finalClearSend`. -/
inductive IClearSend
  | active (snd : clearSend)
  | final (snd : finalClearSend)

/-- The function `newClearSend` of clear_send.go. -/
def newClearSend (argEqual : Value → Value → Bool) (path : clearPath)
    (params : List Value) : IClearSend :=
  if (internal.GetLastArgument params).2 then
    .final
      { IStep := removeStep argEqual path
        message := "only usable with Clear().Send() not with Clear().Send(value)" }
  else
    .active { cleanPath := path }

/-- The method `clearSend.when`. -/
def clearSend.when (_snd : clearSend) : StepTime :=
  .CleanStep

/-- The method `clearSend.clearPath`. -/
def clearSend.clearPath (snd : clearSend) : clearPath :=
  snd.cleanPath

/-- The method `clearSend.Body`. -/
def clearSend.Body (snd : clearSend) (value : List Value) : IClearSendBody :=
  .newClearSendBody (snd.clearPath.Push "Body" value) value

/-- The method `clearSend.Interface`. -/
def clearSend.Interface (argEqual : Value → Value → Bool) (snd : clearSend)
    (value : List Value) : hitStep :=
  removeStep argEqual (snd.clearPath.Push "Interface" value)

/-- The method `clearSend.Custom`: the callbacks are copied one by one into a
`[]interface{}` of the same length. -/
def clearSend.Custom (argEqual : Value → Value → Bool) (snd : clearSend)
    (fn : List CallbackRef) : hitStep :=
  let args := fn.map Value.func
  removeStep argEqual (snd.clearPath.Push "Custom" args)

/-- The method `clearSend.JSON`. -/
def clearSend.JSON (argEqual : Value → Value → Bool) (snd : clearSend)
    (value : List Value) : hitStep :=
  removeStep argEqual (snd.clearPath.Push "JSON" value)

/-- The method `clearSend.Header`. -/
def clearSend.Header (argEqual : Value → Value → Bool) (snd : clearSend)
    (values : List Value) : hitStep :=
  removeStep argEqual (snd.clearPath.Push "Header" values)

/-- The method `finalClearSend.fail`. -/
def finalClearSend.fail (snd : finalClearSend) : hitStep :=
  { When := .CleanStep
    ClearPath := none
    Exec := fun hit => (hit, some snd.message) }

/-- The method `finalClearSend.Body`. -/
def finalClearSend.Body (snd : finalClearSend) (_value : List Value) : IClearSendBody :=
  .final { IStep := snd.fail, message := snd.message }

/-- The method `finalClearSend.Custom`. -/
def finalClearSend.Custom (snd : finalClearSend) (_fn : List CallbackRef) : hitStep :=
  snd.fail

/-- The method `finalClearSend.JSON`. -/
def finalClearSend.JSON (snd : finalClearSend) (_value : List Value) : hitStep :=
  snd.fail

/-- The method `finalClearSend.Header`. -/
def finalClearSend.Header (snd : finalClearSend) (_values : List Value) : hitStep :=
  snd.fail

/-- The method `finalClearSend.Interface`. -/
def finalClearSend.Interface (snd : finalClearSend) (_value : List Value) : hitStep :=
  snd.fail

/-- The method `Body` of the interface `IClearSend`. -/
def IClearSend.Body : IClearSend → List Value → IClearSendBody
  | .active snd, value => snd.Body value
  | .final snd, value => snd.Body value

/-- The method `Interface` of the interface `IClearSend`. -/
def IClearSend.Interface (argEqual : Value → Value → Bool) :
    IClearSend → List Value → hitStep
  | .active snd, value => snd.Interface argEqual value
  | .final snd, value => snd.Interface value

/-- The method `Custom` of the interface `IClearSend`. -/
def IClearSend.Custom (argEqual : Value → Value → Bool) :
    IClearSend → List CallbackRef → hitStep
  | .active snd, fn => snd.Custom argEqual fn
  | .final snd, fn => snd.Custom fn

/-- The method `JSON` of the interface `IClearSend`. -/
def IClearSend.JSON (argEqual : Value → Value → Bool) : IClearSend → List Value → hitStep
  | .active snd, value => snd.JSON argEqual value
  | .final snd, value => snd.JSON value

/-- The method `Header` of the interface `IClearSend`. -/
def IClearSend.Header (argEqual : Value → Value → Bool) :
    IClearSend → List Value → hitStep
  | .active snd, values => snd.Header argEqual values
  | .final snd, values => snd.Header values

/-- The struct `clearExpectBodyJSON` (without its `trace` field). -/
structure clearExpectBodyJSON where
  /-- The body chain this chain was reached from. -/
  clearExpectBody : IClearExpectBody
  /-- The path of the chain. -/
  cleanPath : clearPath

/-- The struct `finalClearExpectBodyJSON`. -/
structure finalClearExpectBodyJSON where
  /-- The embedded `IStep`. -/
  IStep : hitStep
  /-- The fixed message. -/
  message : String

/-- The interface `IClearExpectBodyJSON`: a `clearExpectBodyJSON` or a
`finalClearExpectBodyJSON`. -/
inductive IClearExpectBodyJSON
  | active (jsn : clearExpectBodyJSON)
  | final (jsn : finalClearExpectBodyJSON)

/-- The function `newClearExpectBodyJSON` of clear_expect_body_json.go. -/
def newClearExpectBodyJSON (argEqual : Value → Value → Bool) (body : IClearExpectBody)
    (cleanPath : clearPath) (params : List Value) : IClearExpectBodyJSON :=
  if (internal.GetLastArgument params).2 then
    .final
      { IStep := removeStep argEqual cleanPath
        message :=
          "only usable with Clear().Expect().Body().JSON() not with Clear().Expect().Body().JSON(value)" }
  else
    .active { clearExpectBody := body, cleanPath := cleanPath }

/-- The method `clearExpectBodyJSON.when`. -/
def clearExpectBodyJSON.when (_jsn : clearExpectBodyJSON) : StepTime :=
  .CleanStep

/-- The method `clearExpectBodyJSON.clearPath`. -/
def clearExpectBodyJSON.clearPath (jsn : clearExpectBodyJSON) : clearPath :=
  jsn.cleanPath

/-- The method `clearExpectBodyJSON.Equal`. -/
def clearExpectBodyJSON.Equal (argEqual : Value → Value → Bool)
    (jsn : clearExpectBodyJSON) (value : List Value) : hitStep :=
  removeStep argEqual (jsn.clearPath.Push "Equal" value)

/-- The method `clearExpectBodyJSON.NotEqual`. -/
def clearExpectBodyJSON.NotEqual (argEqual : Value → Value → Bool)
    (jsn : clearExpectBodyJSON) (value : List Value) : hitStep :=
  removeStep argEqual (jsn.clearPath.Push "NotEqual" value)

/-- The method `clearExpectBodyJSON.Contains`. -/
def clearExpectBodyJSON.Contains (argEqual : Value → Value → Bool)
    (jsn : clearExpectBodyJSON) (value : List Value) : hitStep :=
  removeStep argEqual (jsn.clearPath.Push "Contains" value)

/-- The method `clearExpectBodyJSON.NotContains`. -/
def clearExpectBodyJSON.NotContains (argEqual : Value → Value → Bool)
    (jsn : clearExpectBodyJSON) (value : List Value) : hitStep :=
  removeStep argEqual (jsn.clearPath.Push "NotContains" value)

/-- The method `finalClearExpectBodyJSON.fail`. -/
def finalClearExpectBodyJSON.fail (jsn : finalClearExpectBodyJSON) : hitStep :=
  { When := .CleanStep
    ClearPath := none
    Exec := fun hit => (hit, some jsn.message) }

/-- The method `finalClearExpectBodyJSON.Equal`. -/
def finalClearExpectBodyJSON.Equal (jsn : finalClearExpectBodyJSON)
    (_value : List Value) : hitStep :=
  jsn.fail

/-- The method `finalClearExpectBodyJSON.NotEqual`. -/
def finalClearExpectBodyJSON.NotEqual (jsn : finalClearExpectBodyJSON)
    (_value : List Value) : hitStep :=
  jsn.fail

/-- The method `finalClearExpectBodyJSON.Contains`. -/
def finalClearExpectBodyJSON.Contains (jsn : finalClearExpectBodyJSON)
    (_value : List Value) : hitStep :=
  jsn.fail

/-- The method `finalClearExpectBodyJSON.NotContains`. -/
def finalClearExpectBodyJSON.NotContains (jsn : finalClearExpectBodyJSON)
    (_value : List Value) : hitStep :=
  jsn.fail

/-- The method `Equal` of the interface `IClearExpectBodyJSON`. -/
def IClearExpectBodyJSON.Equal (argEqual : Value → Value → Bool) :
    IClearExpectBodyJSON → List Value → hitStep
  | .active jsn, value => jsn.Equal argEqual value
  | .final jsn, value => jsn.Equal value

/-- The method `NotEqual` of the interface `IClearExpectBodyJSON`. -/
def IClearExpectBodyJSON.NotEqual (argEqual : Value → Value → Bool) :
    IClearExpectBodyJSON → List Value → hitStep
  | .active jsn, value => jsn.NotEqual argEqual value
  | .final jsn, value => jsn.NotEqual value

/-- The method `Contains` of the interface `IClearExpectBodyJSON`. -/
def IClearExpectBodyJSON.Contains (argEqual : Value → Value → Bool) :
    IClearExpectBodyJSON → List Value → hitStep
  | .active jsn, value => jsn.Contains argEqual value
  | .final jsn, value => jsn.Contains value

/-- The method `NotContains` of the interface `IClearExpectBodyJSON`. -/
def IClearExpectBodyJSON.NotContains (argEqual : Value → Value → Bool) :
    IClearExpectBodyJSON → List Value → hitStep
  | .active jsn, value => jsn.NotContains argEqual value
  | .final jsn, value => jsn.NotContains value

/-- Modelled from the spec: the path carried by the chain `Expect().Body().JSON()` and by
the chain `Clear().Expect().Body().JSON()` (the expect chains and the parents of the
clear chains are not among the sources): one segment for each call, named like the call,
with the arguments of the call. -/
def expectBodyJSONPath : clearPath :=
  ((clearPath.Push [] "Expect" []).Push "Body" []).Push "JSON" []

/-- Modelled from the spec: the step declared by `Expect().Body().JSON().Equal(args...)`,
as the clear engine sees it. -/
def declaredExpectBodyJSONEqual (id : Nat) (args : List Value) : declaredStep :=
  { id := id, ClearPath := some (expectBodyJSONPath.Push "Equal" args) }

/-- The struct `expectHeaders` of expect_headers.go. -/
structure expectHeaders where
  /-- The embedded run context. -/
  Hit : Hit
  /-- The expect chain. -/
  expect : IExpect
  /-- The name of the bound header, empty when none is bound. -/
  specificHeader : String

/-- Modelled from the spec: the call `errortrace.Panic.FailNow(t, err)` (package
errortrace is not among the sources).  A usage error fails immediately with its fixed
message and nothing after it runs. -/
def errortraceFailNow (err : String) : Except String Unit :=
  .error err

/-- The method `expectHeaders.Get`. -/
def expectHeaders.Get (hdr : expectHeaders) (name : String) : Except String expectHeaders := do
  if hdr.specificHeader != "" then
    errortraceFailNow "Get can only be used if no header was already specified"
  return { Hit := hdr.Hit, expect := hdr.expect, specificHeader := name }

end hit

/-! ## The loop of `GetElem` and the `OneOf` of the header chain -/

/-- The number of iterations the loop of `GetElem` makes on a value: one for each pointer
and interface on the way to the base value, a nil pointer included. -/
def Value.layers : Value → Nat
  | .ptr _ t => t.layers + 1
  | .iface h => h.layers + 1
  | .nilPtr => 1
  | _ => 0

/-- A layer around a value: a pointer that is not nil, with its address, or an
interface. -/
inductive Layer
  | ptr (addr : Nat)
  | iface
  deriving DecidableEq, Repr

/-- The value `base` wrapped in the given layers, the outermost first. -/
def wrapLayers : List Layer → Value → Value
  | [], base => base
  | .ptr addr :: ls, base => .ptr addr (wrapLayers ls base)
  | .iface :: ls, base => .iface (wrapLayers ls base)

namespace internal

/-- The loop of `GetElem` of internal/helpers.go,
`for r.IsValid() && r.Kind() == reflect.Ptr || r.Kind() == reflect.Interface { r = r.Elem() }`,
run for at most `fuel` iterations: `none` when the loop has not ended by then, the
returned value otherwise. -/
def GetElemLoop : Nat → Value → Option Value
  | 0, r =>
    if (r.IsValid && r.Kind == Kind.Ptr) || r.Kind == Kind.Interface then none
    else some r
  | fuel + 1, r =>
    if (r.IsValid && r.Kind == Kind.Ptr) || r.Kind == Kind.Interface then
      GetElemLoop fuel r.Elem
    else some r

end internal

namespace hit

/-- A value of type `http.Header` as an `interface{}`: a map from the header names to the
slices of their values. -/
def Header.toValue (h : Header) : Value :=
  .map (h.map fun e => (.str e.1, .slice (e.2.map Value.str)))

/-- The method `expectHeaders.value` of expect_headers.go. -/
def expectHeaders.value (lib : Lib) (hdr : expectHeaders) (headers : Header) : Value :=
  if hdr.specificHeader == "" then headers.toValue
  else .str (Header.Get lib headers hdr.specificHeader)

/-- Modelled from the spec: the assertion `Contains` of an error trace,
`et.Panic.Contains(t, object, contains)` (package errortrace is not among the sources).
It is the containment check of the comparison engine, `minitest.Contains`; on failure
the trace decorates the diagnostic, which `traceFormat` stands for. -/
def errortraceContains (traceFormat : String → String) (lib : Lib)
    (object contains : Value) : Except String Unit :=
  match minitest.Contains lib object contains [] with
  | .ok u => .ok u
  | .error e => .error (traceFormat e)

/-- The method `expectHeaders.OneOf` of expect_headers.go; the error of the result is the
panic raised while the step is declared. -/
def expectHeaders.OneOf (traceFormat : String → String) (lib : Lib) (hdr : expectHeaders)
    (values : List Value) : Except String IStep := do
  if hdr.specificHeader == "" then
    errortraceFailNow "OneOf can only be used if a header was already specified"
  return hdr.expect.Custom fun hit =>
    errortraceContains traceFormat lib (.slice values) (hdr.value lib hit.responseHeader)

end hit

/-! ## The rules of `cmp.Equal` -/

/-- The name of a struct field is exported: it starts with a capital letter. -/
def fieldExported (name : String) : Bool :=
  match name.data with
  | c :: _ => c.isUpper
  | [] => false

mutual
/-- The function `cmp.Equal` of go-cmp, called without options as `minitest.Equal` does,
on the modelled values, by the rules its documentation gives.  Values of different types
are unequal.  Booleans, integers, floats, strings and channels are compared with `==`,
so a NaN differs from itself.  Functions are equal only when both are nil, and a
modelled function is not nil.  Pointers and interfaces are equal when both are nil or
both hold equal values.  Arrays and slices are equal element by element, maps entry by
entry (keys by `==`; the entries of both maps are listed in the order of their keys),
structs of one type field by field.  On a struct with an unexported field go-cmp
panics; the model gives `false` there, and `minitest.Equal` does not succeed either
way. -/
def cmpEqualValue : Value → Value → Bool
  | .nil, .nil => true
  | .bool a, .bool b => a == b
  | .int a, .int b => a == b
  | .float64 a, .float64 b => float64Eq a b
  | .str a, .str b => a == b
  | .array xs, .array ys => cmpEqualList xs ys
  | .slice xs, .slice ys => cmpEqualList xs ys
  | .map xs, .map ys => cmpEqualEntries xs ys
  | .struct n fs, .struct m gs => n == m && cmpEqualFields fs gs
  | .nilPtr, .nilPtr => true
  | .ptr _ t, .ptr _ u => cmpEqualValue t u
  | .iface a, .iface b => cmpEqualValue a b
  | .chan a _, .chan b _ => a == b
  | _, _ => false
/-- Elementwise `cmpEqualValue` of two arrays or slices of the same length. -/
def cmpEqualList : List Value → List Value → Bool
  | [], [] => true
  | x :: xs, y :: ys => cmpEqualValue x y && cmpEqualList xs ys
  | _, _ => false
/-- Entrywise comparison of two maps: keys by `==`, values by `cmpEqualValue`. -/
def cmpEqualEntries : List (Value × Value) → List (Value × Value) → Bool
  | [], [] => true
  | (k, v) :: xs, (l, w) :: ys => goEq k l && cmpEqualValue v w && cmpEqualEntries xs ys
  | _, _ => false
/-- Fieldwise comparison of two structs; every field has to be exported. -/
def cmpEqualFields : List (String × Value) → List (String × Value) → Bool
  | [], [] => true
  | (f, x) :: xs, (g, y) :: ys =>
    f == g && fieldExported f && cmpEqualValue x y && cmpEqualFields xs ys
  | _, _ => false
end

mutual
/-- A value is comparable to itself: no part of it is a NaN or a function, no map in it
has a key that differs from itself by `==`, and no struct in it has an unexported
field. -/
def selfComparable : Value → Bool
  | .float64 bits => !float64IsNaN bits
  | .func _ => false
  | .array xs => selfComparableList xs
  | .slice xs => selfComparableList xs
  | .map es => selfComparableEntries es
  | .struct _ fs => selfComparableFields fs
  | .ptr _ t => selfComparable t
  | .iface h => selfComparable h
  | _ => true
/-- Every element is comparable to itself. -/
def selfComparableList : List Value → Bool
  | [] => true
  | x :: xs => selfComparable x && selfComparableList xs
/-- Every key equals itself by `==` and every value is comparable to itself. -/
def selfComparableEntries : List (Value × Value) → Bool
  | [] => true
  | (k, v) :: es => goEq k k && selfComparable v && selfComparableEntries es
/-- Every field is exported and its value is comparable to itself. -/
def selfComparableFields : List (String × Value) → Bool
  | [] => true
  | (f, x) :: fs => fieldExported f && selfComparable x && selfComparableFields fs
end

/-! ## An instance of the library functions, for evaluating the definitions -/

/-- Decimal digits read as a natural number; `none` when there is no digit or a
character is not a digit. -/
def parseDigits : List Char → Option Nat
  | [] => none
  | cs => cs.foldl (fun acc c =>
      match acc with
      | some n => if c.isDigit then some (n * 10 + (c.toNat - 48)) else none
      | none => none) (some 0)

/-- A decimal integer with an optional leading minus sign. -/
def parseInt (s : String) : Option Int :=
  match s.data with
  | '-' :: cs => (parseDigits cs).map fun n => - (n : Int)
  | cs => (parseDigits cs).map fun n => (n : Int)

/-- A conversion between strings and integers in decimal notation, the identity
between values of one basic kind, an error otherwise; `dst` keeps its content on error. -/
def exampleConvert (src dst : Value) : Value × Option String :=
  match dst, src with
  | .str _, .str s => (.str s, none)
  | .str _, .int n => (.str (toString n), none)
  | .int _, .int n => (.int n, none)
  | .int _, .str s =>
    match parseInt s with
    | some n => (.int n, none)
    | none => (dst, some "unable to convert string to int")
  | .bool _, .bool b => (.bool b, none)
  | _, _ => (dst, some "unable to convert")

/-- An instance of `Lib` on which the definitions can be evaluated: decimal conversion
between strings and integers, `deepcopy.Copy` as the identity, `cmp.Equal` as `goEq`,
strings rendered in double quotes. -/
def exampleLib : Lib where
  convertString src :=
    match exampleConvert src (.str "") with
    | (.str s, err) => (s, err)
    | (_, err) => ("", err)
  convert := exampleConvert
  converterConvert := exampleConvert
  deepcopyCopy v := v
  cmpEqual := goEq
  cmpDiff _ _ := ""
  ppSprint v :=
    match v with
    | .str s => "\"" ++ s ++ "\""
    | .int n => toString n
    | _ => "value"
  sprintf f _ := f
  trimSpace s := s
  format a b := a ++ b
  trimLeftSpaces s := s
  canonicalMIMEHeaderKey s := s

/-- The instance `exampleLib` with `cmp.Equal` by the rules of its documentation. -/
def cmpLib : Lib :=
  { exampleLib with cmpEqual := cmpEqualValue }

/-! ## Theorems -/

/-- The recursion `GetElem` is the loop of the source: while the value is a valid pointer
or an interface, step to `Elem()`. -/
theorem GetElem_loop (r : Value) :
    internal.GetElem r =
      if (r.IsValid && r.Kind == Kind.Ptr) || r.Kind == Kind.Interface then
        internal.GetElem r.Elem
      else r := by
  cases r <;> rfl

theorem stringsContainsAux_iff (s substr : List Char) :
    stringsContainsAux s substr = true ↔ substr <:+: s := by
  induction s with
  | nil => simp [stringsContainsAux, List.isEmpty_iff]
  | cons c cs ih =>
    simp only [stringsContainsAux, Bool.or_eq_true, ih, List.infix_cons_iff,
      List.isPrefixOf_iff_prefix]

theorem stringsContains_iff (s substr : String) :
    stringsContains s substr = true ↔ substr.data <:+: s.data :=
  stringsContainsAux_iff _ _

theorem sliceContainsLoop_cons (lib : Lib) (n v : Value) (rest : List Value) :
    internal.sliceContainsLoop lib n (v :: rest) =
      if (lib.convert n (lib.deepcopyCopy v)).2.isSome then
        internal.sliceContainsLoop lib n rest
      else if lib.cmpEqual v (lib.convert n (lib.deepcopyCopy v)).1 then true
      else internal.sliceContainsLoop lib n rest := rfl

theorem sliceContainsLoop_iff (lib : Lib) (n : Value) (xs : List Value) :
    internal.sliceContainsLoop lib n xs = true ↔
      ∃ v ∈ xs, (lib.convert n (lib.deepcopyCopy v)).2 = none ∧
        lib.cmpEqual v (lib.convert n (lib.deepcopyCopy v)).1 = true := by
  induction xs with
  | nil => simp [internal.sliceContainsLoop]
  | cons v rest ih =>
    rw [sliceContainsLoop_cons]
    simp only [List.mem_cons, exists_eq_or_imp, ← ih]
    cases (lib.convert n (lib.deepcopyCopy v)).2 <;>
      cases lib.cmpEqual v (lib.convert n (lib.deepcopyCopy v)).1 <;> simp

theorem mapContainsLoop_cons (lib : Lib) (n v : Value) (rest : List Value) :
    internal.mapContainsLoop lib n (v :: rest) =
      if (lib.convert n (lib.deepcopyCopy v)).2.isSome then
        internal.mapContainsLoop lib n rest
      else if goEq v (lib.convert n (lib.deepcopyCopy v)).1 then true
      else internal.mapContainsLoop lib n rest := rfl

theorem mapContainsLoop_iff (lib : Lib) (n : Value) (ks : List Value) :
    internal.mapContainsLoop lib n ks = true ↔
      ∃ k ∈ ks, (lib.convert n (lib.deepcopyCopy k)).2 = none ∧
        goEq k (lib.convert n (lib.deepcopyCopy k)).1 = true := by
  induction ks with
  | nil => simp [internal.mapContainsLoop]
  | cons v rest ih =>
    rw [mapContainsLoop_cons]
    simp only [List.mem_cons, exists_eq_or_imp, ← ih]
    cases (lib.convert n (lib.deepcopyCopy v)).2 <;>
      cases goEq v (lib.convert n (lib.deepcopyCopy v)).1 <;> simp

theorem goEq_str_iff (f : String) (w : Value) : goEq (.str f) w = true ↔ w = .str f := by
  cases w with
  | str s =>
    rw [goEq]
    simp only [beq_iff_eq, Value.str.injEq]
    exact eq_comm
  | _ =>
    rw [goEq] <;> simp

theorem structContainsLoop_cons (lib : Lib) (n : Value) (v : String) (rest : List String) :
    internal.structContainsLoop lib n (v :: rest) =
      if (lib.convert n (lib.deepcopyCopy (.str v))).2.isSome then
        internal.structContainsLoop lib n rest
      else if goEq (.str v) (lib.convert n (lib.deepcopyCopy (.str v))).1 then true
      else internal.structContainsLoop lib n rest := rfl

theorem structContainsLoop_iff (lib : Lib) (n : Value) (fs : List String) :
    internal.structContainsLoop lib n fs = true ↔
      ∃ f ∈ fs, (lib.convert n (lib.deepcopyCopy (.str f))).2 = none ∧
        (lib.convert n (lib.deepcopyCopy (.str f))).1 = .str f := by
  simp only [← goEq_str_iff]
  induction fs with
  | nil => simp [internal.structContainsLoop]
  | cons v rest ih =>
    rw [structContainsLoop_cons]
    simp only [List.mem_cons, exists_eq_or_imp, ← ih]
    cases (lib.convert n (lib.deepcopyCopy (.str v))).2 <;>
      cases goEq (.str v) (lib.convert n (lib.deepcopyCopy (.str v))).1 <;> simp

theorem Contains_of_not_nil (lib : Lib) (h n : Value) (hh : h.isNil = false)
    (hn : n.isNil = false) :
    internal.Contains lib h n =
      match h.Kind with
      | .String => internal.stringContains lib h.GoString n
      | .Slice => internal.sliceContains lib h n
      | .Map => internal.mapContains lib h n
      | .Struct => internal.structContains lib h n
      | _ => false := by
  simp [internal.Contains, hh, hn, ValueOf]


/-- C1. For a string haystack and a non-nil needle, `Contains` is true exactly when the
needle converts to a string without error and that string occurs in the haystack; when
the conversion fails the result is `false`. -/
theorem Contains_string_iff_substring (lib : Lib) (s : String) (n : Value)
    (hn : n.isNil = false) :
    (internal.Contains lib (.str s) n = true ↔
      (lib.convertString n).2 = none ∧ (lib.convertString n).1.data <:+: s.data) ∧
    ((lib.convertString n).2 ≠ none → internal.Contains lib (.str s) n = false) := by
  rw [Contains_of_not_nil lib (.str s) n rfl hn]
  simp only [Value.Kind, Value.GoString, internal.stringContains, ← stringsContains_iff]
  cases (lib.convertString n).2 <;> simp

/-- The substring `ell` is found in `Hello`, by C1. -/
theorem Contains_string_iff_substring_witness :
    internal.Contains exampleLib (.str "Hello") (.str "ell") = true :=
  (Contains_string_iff_substring exampleLib "Hello" (.str "ell") rfl).1.2
    ⟨rfl, by decide⟩

/-- C2. For a slice haystack and a non-nil needle, `Contains` is true exactly when at
some index the needle converts without error to the type of the element there and
`cmp.Equal` holds between the element and the converted value; an element whose
conversion fails is skipped, and the empty slice gives `false`. -/
theorem Contains_slice_iff_exists_index (lib : Lib) (xs : List Value) (n : Value)
    (hn : n.isNil = false) :
    (internal.Contains lib (.slice xs) n = true ↔
      ∃ (i : Nat) (h : i < xs.length),
        (lib.convert n (lib.deepcopyCopy xs[i])).2 = none ∧
        lib.cmpEqual xs[i] (lib.convert n (lib.deepcopyCopy xs[i])).1 = true) ∧
    (∀ v rest, (lib.convert n (lib.deepcopyCopy v)).2 ≠ none →
      internal.Contains lib (.slice (v :: rest)) n = internal.Contains lib (.slice rest) n) ∧
    internal.Contains lib (.slice []) n = false := by
  have hC : ∀ ys, internal.Contains lib (.slice ys) n = internal.sliceContainsLoop lib n ys :=
    fun ys => Contains_of_not_nil lib (.slice ys) n rfl hn
  refine ⟨?_, ?_, ?_⟩
  · rw [hC, sliceContainsLoop_iff]
    constructor
    · rintro ⟨v, hv, h1, h2⟩
      obtain ⟨i, hi, rfl⟩ := List.getElem_of_mem hv
      exact ⟨i, hi, h1, h2⟩
    · rintro ⟨i, hi, h1, h2⟩
      exact ⟨xs[i], List.getElem_mem _, h1, h2⟩
  · intro v rest hv
    rw [hC, hC, sliceContainsLoop_cons]
    cases h : (lib.convert n (lib.deepcopyCopy v)).2 with
    | none => exact absurd h hv
    | some e => simp
  · rw [hC]; rfl

/-- The header value `Hello` is found among the candidates `3`, `Hello`, by C2. -/
theorem Contains_slice_iff_exists_index_witness :
    internal.Contains exampleLib (.slice [.int 3, .str "Hello"]) (.str "Hello") = true :=
  (Contains_slice_iff_exists_index exampleLib [.int 3, .str "Hello"] (.str "Hello") rfl).1.2
    ⟨1, by decide, rfl, by decide⟩

/-- C3. For a map haystack and a non-nil needle, `Contains` looks at the keys only: it is
true exactly when the needle converts without error to the type of some key and the
converted value equals that key.  Two maps with the same keys give the same result
whatever their values are, and when no key matches the result is `false` whatever the
values are. -/
theorem Contains_map_keys_only (lib : Lib) (m : List (Value × Value)) (n : Value)
    (hn : n.isNil = false) :
    (internal.Contains lib (.map m) n = true ↔
      ∃ k ∈ m.map Prod.fst, (lib.convert n (lib.deepcopyCopy k)).2 = none ∧
        goEq k (lib.convert n (lib.deepcopyCopy k)).1 = true) ∧
    (∀ m2 : List (Value × Value), (∀ k, k ∈ m.map Prod.fst ↔ k ∈ m2.map Prod.fst) →
      internal.Contains lib (.map m2) n = internal.Contains lib (.map m) n) ∧
    ((∀ k ∈ m.map Prod.fst, ¬ ((lib.convert n (lib.deepcopyCopy k)).2 = none ∧
        goEq k (lib.convert n (lib.deepcopyCopy k)).1 = true)) →
      internal.Contains lib (.map m) n = false) := by
  have hC : ∀ e, internal.Contains lib (.map e) n =
      internal.mapContainsLoop lib n (e.map Prod.fst) :=
    fun e => Contains_of_not_nil lib (.map e) n rfl hn
  refine ⟨?_, ?_, ?_⟩
  · rw [hC, mapContainsLoop_iff]
  · intro m2 hk
    rw [Bool.eq_iff_iff, hC, hC, mapContainsLoop_iff, mapContainsLoop_iff]
    constructor
    · rintro ⟨k, hm, h⟩
      exact ⟨k, (hk k).2 hm, h⟩
    · rintro ⟨k, hm, h⟩
      exact ⟨k, (hk k).1 hm, h⟩
  · intro hno
    rw [← Bool.not_eq_true, hC, mapContainsLoop_iff]
    rintro ⟨k, hm, h⟩
    exact hno k hm h

/-- The key `Name` of a map is found, by C3. -/
theorem Contains_map_keys_only_witness :
    internal.Contains exampleLib (.map [(.str "Name", .str "Joe")]) (.str "Name") = true ∧
    internal.Contains exampleLib (.map [(.str "Name", .str "Joe")]) (.str "Joe") = false :=
  ⟨(Contains_map_keys_only exampleLib [(.str "Name", .str "Joe")] (.str "Name") rfl).1.2
      ⟨.str "Name", by simp, rfl, by decide⟩,
   (Contains_map_keys_only exampleLib [(.str "Name", .str "Joe")] (.str "Joe") rfl).2.2
      (by intro k hk; simp at hk; subst hk; decide)⟩

/-- C4. For a struct haystack and a non-nil needle, `Contains` is true exactly when the
needle converts without error to a string equal to the name of one of the fields; the
field values and the struct type play no role, and a struct without fields gives
`false`. -/
theorem Contains_struct_iff_field_name (lib : Lib) (t : String)
    (fs : List (String × Value)) (n : Value) (hn : n.isNil = false) :
    (internal.Contains lib (.struct t fs) n = true ↔
      ∃ f ∈ fs.map Prod.fst, (lib.convert n (lib.deepcopyCopy (.str f))).2 = none ∧
        (lib.convert n (lib.deepcopyCopy (.str f))).1 = .str f) ∧
    (∀ (t2 : String) (gs : List (String × Value)), gs.map Prod.fst = fs.map Prod.fst →
      internal.Contains lib (.struct t2 gs) n = internal.Contains lib (.struct t fs) n) ∧
    internal.Contains lib (.struct t []) n = false := by
  have hC : ∀ u e, internal.Contains lib (.struct u e) n =
      internal.structContainsLoop lib n (e.map Prod.fst) :=
    fun u e => Contains_of_not_nil lib (.struct u e) n rfl hn
  refine ⟨?_, ?_, ?_⟩
  · rw [hC, structContainsLoop_iff]
  · intro t2 gs hg
    rw [hC, hC, hg]
  · rw [hC]; rfl

/-- The field name `Name` is found in a struct and the field value `Joe` is not, by C4. -/
theorem Contains_struct_iff_field_name_witness :
    internal.Contains exampleLib (.struct "User" [("Name", .str "Joe")]) (.str "Name") = true :=
  (Contains_struct_iff_field_name exampleLib "User" [("Name", .str "Joe")] (.str "Name")
    rfl).1.2 ⟨"Name", by simp, rfl, rfl⟩

/-- C5. `Contains` is `false` when exactly one of haystack and needle is nil, and for
every non-nil haystack whose kind is none of string, slice, map and struct, whatever the
needle is. -/
theorem Contains_false_of_nil_mismatch_or_other_kind (lib : Lib) (h n : Value)
    (hc : h.isNil ≠ n.isNil ∨
      (h.isNil = false ∧ h.Kind ≠ .String ∧ h.Kind ≠ .Slice ∧ h.Kind ≠ .Map ∧
        h.Kind ≠ .Struct)) :
    internal.Contains lib h n = false := by
  rcases hc with hc | ⟨hh, h1, h2, h3, h4⟩
  · cases hh : h.isNil <;> cases hn : n.isNil <;> simp_all [internal.Contains]
  · cases hn : n.isNil
    · rw [Contains_of_not_nil lib h n hh hn]
      cases h <;> simp_all [Value.Kind]
    · simp [internal.Contains, hh, hn]

/-- An integer, a float, a boolean, a pointer and an array contain nothing, and nil is
contained in no string, by C5. -/
theorem Contains_false_of_nil_mismatch_or_other_kind_witness :
    internal.Contains exampleLib (.int 5) (.int 5) = false ∧
    internal.Contains exampleLib (.float64 0) (.float64 0) = false ∧
    internal.Contains exampleLib (.bool true) (.bool true) = false ∧
    internal.Contains exampleLib (.ptr 1 (.str "a")) (.str "a") = false ∧
    internal.Contains exampleLib (.array [.int 1]) (.int 1) = false ∧
    internal.Contains exampleLib (.str "a") .nil = false ∧
    internal.Contains exampleLib .nil (.str "a") = false :=
  ⟨Contains_false_of_nil_mismatch_or_other_kind exampleLib _ _ (Or.inr (by decide)),
   Contains_false_of_nil_mismatch_or_other_kind exampleLib _ _ (Or.inr (by decide)),
   Contains_false_of_nil_mismatch_or_other_kind exampleLib _ _ (Or.inr (by decide)),
   Contains_false_of_nil_mismatch_or_other_kind exampleLib _ _ (Or.inr (by decide)),
   Contains_false_of_nil_mismatch_or_other_kind exampleLib _ _ (Or.inr (by decide)),
   Contains_false_of_nil_mismatch_or_other_kind exampleLib _ _ (Or.inl (by decide)),
   Contains_false_of_nil_mismatch_or_other_kind exampleLib _ _ (Or.inl (by decide))⟩

theorem panicNow_error (lib : Lib) (err : String) (args : List Value) :
    ∃ msg, minitest.panicNow lib err args = .error msg := by
  unfold minitest.panicNow
  cases minitest.formatMessage lib args with
  | error p => exact ⟨p, rfl⟩
  | ok d => exact ⟨_, rfl⟩

theorem panicNow_ne_ok (lib : Lib) (err : String) (args : List Value) :
    minitest.panicNow lib err args ≠ .ok () := by
  obtain ⟨msg, h⟩ := panicNow_error lib err args
  rw [h]; exact fun h => by cases h

theorem panicNow_nil (lib : Lib) (err : String) :
    minitest.panicNow lib err [] = .error err := by
  by_cases h : err = ""
  · subst h; rfl
  · simp [minitest.panicNow, minitest.formatMessage, h]

theorem Contains_ok_iff (lib : Lib) (object contains : Value) (args : List Value) :
    minitest.Contains lib object contains args = .ok () ↔
      internal.Contains lib object contains = true := by
  unfold minitest.Contains
  cases internal.Contains lib object contains <;> simp [panicNow_ne_ok]

theorem Len_ok_iff (lib : Lib) (object : Value) (n : Int) (args : List Value) :
    minitest.Len lib object n args = .ok () ↔
      (internal.GetValue object).Kind ∈ [Kind.Array, Kind.Chan, Kind.Map, Kind.Slice, Kind.String] ∧
        ((internal.GetValue object).Len : Int) = n := by
  unfold minitest.Len
  cases h : (internal.GetValue object).Kind <;>
    by_cases hl : ((internal.GetValue object).Len : Int) = n <;>
    simp [h, panicNow_ne_ok, hl]

theorem Empty_ok_iff (lib : Lib) (object : Value) (args : List Value) :
    minitest.Empty lib object args = .ok () ↔
      (internal.GetValue object).Kind ∈ [Kind.Array, Kind.Chan, Kind.Map, Kind.Slice, Kind.String] ∧
        (internal.GetValue object).Len = 0 := by
  unfold minitest.Empty
  cases h : (internal.GetValue object).Kind <;>
    by_cases hl : (internal.GetValue object).Len = 0 <;>
    simp [h, panicNow_ne_ok, hl]

theorem ne_ok_iff_error (r : Except String Unit) : r ≠ .ok () ↔ ∃ msg, r = .error msg := by
  cases r with
  | error e => simp
  | ok u => cases u; simp

/-- C6. The step built by `OneOf(vs...)` succeeds exactly when `internal.Contains` finds
the header value (the needle) in the candidate list (the haystack); otherwise it fails
with the diagnostic that the rendered list does not contain the rendered header value. -/
theorem OneOf_iff_Contains_reversed (lib : Lib) (header : String) (vs : List Value)
    (ctx : hit.Hit) :
    (((hit.newExpectSpecificHeader hit.defaultExpect header).OneOf lib vs).exec ctx = .ok () ↔
      internal.Contains lib (.slice vs)
        (.str (hit.Header.Get lib ctx.responseHeader header)) = true) ∧
    ((hit.newExpectSpecificHeader hit.defaultExpect header).OneOf lib vs).exec ctx =
      if internal.Contains lib (.slice vs)
          (.str (hit.Header.Get lib ctx.responseHeader header)) then .ok ()
      else .error (lib.ppSprint (.slice vs) ++ " does not contain " ++
        lib.ppSprint (.str (hit.Header.Get lib ctx.responseHeader header))) := by
  refine ⟨Contains_ok_iff lib _ _ [], ?_⟩
  show minitest.Contains lib (.slice vs)
    (.str (hit.Header.Get lib ctx.responseHeader header)) [] = _
  unfold minitest.Contains
  cases internal.Contains lib (.slice vs)
    (.str (hit.Header.Get lib ctx.responseHeader header)) <;> simp [panicNow_nil]

/-- C7. `Len(object, n)` succeeds exactly when the object, with all pointers and
interfaces followed, has kind array, chan, map, slice or string and its length is `n`;
on an object of another kind it panics for every `n`. -/
theorem Len_succeeds_iff_measurable_and_length (lib : Lib) (object : Value) (n : Int)
    (args : List Value) :
    (minitest.Len lib object n args = .ok () ↔
      (internal.GetValue object).Kind ∈
          [Kind.Array, Kind.Chan, Kind.Map, Kind.Slice, Kind.String] ∧
        ((internal.GetValue object).Len : Int) = n) ∧
    ((internal.GetValue object).Kind ∉
          [Kind.Array, Kind.Chan, Kind.Map, Kind.Slice, Kind.String] →
      ∀ m : Int, ∃ msg, minitest.Len lib object m args = .error msg) := by
  refine ⟨Len_ok_iff lib object n args, fun hk m => ?_⟩
  rw [← ne_ok_iff_error, Ne, Len_ok_iff]
  exact fun h => hk h.1

/-- The length check fails on an integer even for the length zero, by C7. -/
theorem Len_succeeds_iff_measurable_and_length_witness :
    (minitest.Len exampleLib (.ptr 1 (.iface (.str "Hello"))) 5 [] = .ok ()) ∧
    ∃ msg, minitest.Len exampleLib (.int 0) 0 [] = .error msg :=
  ⟨(Len_succeeds_iff_measurable_and_length exampleLib (.ptr 1 (.iface (.str "Hello"))) 5
      []).1.2 ⟨by decide, by decide⟩,
   (Len_succeeds_iff_measurable_and_length exampleLib (.int 0) 0 []).2 (by decide) 0⟩

/-- C8. `Empty(object)` succeeds exactly when `Len(object, 0)` succeeds.  The step
`Empty()` on a header that the response does not carry succeeds, and on a header whose
value is `Hello` it fails. -/
theorem Empty_iff_Len_zero (lib : Lib) (object : Value) (args args2 : List Value) :
    (minitest.Empty lib object args = .ok () ↔ minitest.Len lib object 0 args2 = .ok ()) ∧
    (∀ (h : hit.Hit) (name : String),
      h.responseHeader.lookup (lib.canonicalMIMEHeaderKey name) = none →
      ((hit.newExpectSpecificHeader hit.defaultExpect name).Empty lib).exec h = .ok ()) ∧
    (∀ (h : hit.Hit) (name : String),
      hit.Header.Get lib h.responseHeader name = "Hello" →
      ∃ msg, ((hit.newExpectSpecificHeader hit.defaultExpect name).Empty lib).exec h =
        .error msg) := by
  refine ⟨?_, ?_, ?_⟩
  · rw [Empty_ok_iff, Len_ok_iff]
    simp
  · intro h name hn
    show minitest.Empty lib (.str (hit.Header.Get lib h.responseHeader name)) [] = _
    rw [Empty_ok_iff]
    simp only [hit.Header.Get, hn]
    decide
  · intro h name hn
    show ∃ msg, minitest.Empty lib (.str (hit.Header.Get lib h.responseHeader name)) [] = _
    rw [← ne_ok_iff_error, Ne, Empty_ok_iff, hn]
    decide

/-- The absent header `X-Header2` is empty and the header `X-Header1: Hello` is not, by C8. -/
theorem Empty_iff_Len_zero_witness :
    ((hit.newExpectSpecificHeader hit.defaultExpect "X-Header2").Empty exampleLib).exec
        ⟨[("X-Header1", ["Hello"])]⟩ = .ok () ∧
    ∃ msg, ((hit.newExpectSpecificHeader hit.defaultExpect "X-Header1").Empty exampleLib).exec
        ⟨[("X-Header1", ["Hello"])]⟩ = .error msg :=
  ⟨(Empty_iff_Len_zero exampleLib .nil [] []).2.1 ⟨[("X-Header1", ["Hello"])]⟩ "X-Header2"
      (by decide),
   (Empty_iff_Len_zero exampleLib .nil [] []).2.2 ⟨[("X-Header1", ["Hello"])]⟩ "X-Header1"
      (by decide)⟩

theorem Equal_ok_iff (lib : Lib) (expected actual : Value) (args : List Value) :
    minitest.Equal lib expected actual args = .ok () ↔ lib.cmpEqual expected actual = true := by
  unfold minitest.Equal
  cases lib.cmpEqual expected actual <;> simp [panicNow_ne_ok]

theorem header_Equal_exec (lib : Lib) (header : String) (v : Value) (ctx : hit.Hit) :
    ((hit.newExpectSpecificHeader hit.defaultExpect header).Equal lib v).exec ctx =
      (minitest.NoError lib
          (lib.converterConvert (.str (hit.Header.Get lib ctx.responseHeader header)) v).2
          []).bind fun _ =>
        minitest.Equal lib v
          (lib.converterConvert (.str (hit.Header.Get lib ctx.responseHeader header)) v).1 [] :=
  rfl

theorem float64Eq_self (a : Nat) (h : float64IsNaN a = false) : float64Eq a a = true := by
  simp [float64Eq, h]

mutual
theorem cmpEqualValue_self : ∀ x : Value, selfComparable x = true → cmpEqualValue x x = true
  | .nil, _ => by rw [cmpEqualValue]
  | .bool b, _ => by rw [cmpEqualValue]; exact beq_self_eq_true b
  | .int n, _ => by rw [cmpEqualValue]; exact beq_self_eq_true n
  | .float64 bits, h => by
    rw [selfComparable] at h
    rw [cmpEqualValue]
    exact float64Eq_self bits (by simpa using h)
  | .str s, _ => by rw [cmpEqualValue]; exact beq_self_eq_true s
  | .array xs, h => by
    rw [selfComparable] at h
    rw [cmpEqualValue]
    exact cmpEqualList_self xs h
  | .slice xs, h => by
    rw [selfComparable] at h
    rw [cmpEqualValue]
    exact cmpEqualList_self xs h
  | .map es, h => by
    rw [selfComparable] at h
    rw [cmpEqualValue]
    exact cmpEqualEntries_self es h
  | .struct n fs, h => by
    rw [selfComparable] at h
    rw [cmpEqualValue, Bool.and_eq_true]
    exact ⟨beq_self_eq_true n, cmpEqualFields_self fs h⟩
  | .nilPtr, _ => by rw [cmpEqualValue]
  | .ptr a t, h => by
    rw [selfComparable] at h
    rw [cmpEqualValue]
    exact cmpEqualValue_self t h
  | .iface v, h => by
    rw [selfComparable] at h
    rw [cmpEqualValue]
    exact cmpEqualValue_self v h
  | .chan a q, _ => by rw [cmpEqualValue]; exact beq_self_eq_true a
  | .func f, h => by
    rw [selfComparable] at h
    exact absurd h Bool.false_ne_true
theorem cmpEqualList_self :
    ∀ xs : List Value, selfComparableList xs = true → cmpEqualList xs xs = true
  | [], _ => by rw [cmpEqualList]
  | x :: xs, h => by
    rw [selfComparableList, Bool.and_eq_true] at h
    rw [cmpEqualList, Bool.and_eq_true]
    exact ⟨cmpEqualValue_self x h.1, cmpEqualList_self xs h.2⟩
theorem cmpEqualEntries_self :
    ∀ es : List (Value × Value), selfComparableEntries es = true →
      cmpEqualEntries es es = true
  | [], _ => by rw [cmpEqualEntries]
  | (k, v) :: es, h => by
    rw [selfComparableEntries, Bool.and_eq_true, Bool.and_eq_true] at h
    rw [cmpEqualEntries, Bool.and_eq_true, Bool.and_eq_true]
    exact ⟨⟨h.1.1, cmpEqualValue_self v h.1.2⟩, cmpEqualEntries_self es h.2⟩
theorem cmpEqualFields_self :
    ∀ fs : List (String × Value), selfComparableFields fs = true →
      cmpEqualFields fs fs = true
  | [], _ => by rw [cmpEqualFields]
  | (f, x) :: fs, h => by
    rw [selfComparableFields, Bool.and_eq_true, Bool.and_eq_true] at h
    rw [cmpEqualFields, Bool.and_eq_true, Bool.and_eq_true, Bool.and_eq_true]
    exact ⟨⟨⟨beq_self_eq_true f, h.1.1⟩, cmpEqualValue_self x h.1.2⟩,
      cmpEqualFields_self fs h.2⟩
end

/-- C9. With `cmp.Equal` following the rules of its documentation, `Equal(x, x)` does
not panic for every value `x` that is comparable to itself (no NaN, no function, no map
key that differs from itself, no unexported struct field inside), and two such calls in
a row both succeed.  `Equal(x, y)` succeeds exactly when `cmp.Equal` holds, and on a NaN
compared with itself it panics. -/
theorem Equal_reflexive (lib : Lib) (x : Value) (args : List Value)
    (hcmp : ∀ a b, lib.cmpEqual a b = cmpEqualValue a b)
    (hx : selfComparable x = true) :
    minitest.Equal lib x x args = .ok () ∧
    ((minitest.Equal lib x x args).bind fun _ => minitest.Equal lib x x args) = .ok () ∧
    (∀ y, minitest.Equal lib x y args = .ok () ↔ cmpEqualValue x y = true) ∧
    (∀ bits, float64IsNaN bits = true →
      ∃ msg, minitest.Equal lib (.float64 bits) (.float64 bits) args = .error msg) := by
  have hr : lib.cmpEqual x x = true := by
    rw [hcmp]
    exact cmpEqualValue_self x hx
  have h := (Equal_ok_iff lib x x args).2 hr
  refine ⟨h, by rw [h]; rfl, fun y => by rw [Equal_ok_iff, hcmp], fun bits hb => ?_⟩
  rw [← ne_ok_iff_error, Ne, Equal_ok_iff, hcmp, cmpEqualValue]
  simp [float64Eq, hb]

/-- The body text `Hello World` is equal to itself, twice in a row, and so is a slice
holding a pointer to a map, by C9. -/
theorem Equal_reflexive_witness :
    (minitest.Equal cmpLib (.str "Hello World") (.str "Hello World") [] = .ok () ∧
      ((minitest.Equal cmpLib (.str "Hello World") (.str "Hello World") []).bind fun _ =>
        minitest.Equal cmpLib (.str "Hello World") (.str "Hello World") []) = .ok ()) ∧
    minitest.Equal cmpLib (.slice [.int 1, .ptr 7 (.map [(.str "Name", .str "Joe")])])
      (.slice [.int 1, .ptr 7 (.map [(.str "Name", .str "Joe")])]) [] = .ok () :=
  ⟨⟨(Equal_reflexive cmpLib (.str "Hello World") [] (fun _ _ => rfl) (by decide)).1,
    (Equal_reflexive cmpLib (.str "Hello World") [] (fun _ _ => rfl) (by decide)).2.1⟩,
   (Equal_reflexive cmpLib (.slice [.int 1, .ptr 7 (.map [(.str "Name", .str "Joe")])]) []
      (fun _ _ => rfl) (by decide)).1⟩

/-- C10. The step built by `Equal(v)` converts the header value to the type of `v`
first.  When the conversion fails the step fails with exactly the conversion error and
the comparison is not evaluated; when it succeeds the step succeeds exactly when
`cmp.Equal` holds between `v` and the converted value, and fails with the `Not equal`
diagnostic otherwise. -/
theorem header_Equal_converts_then_compares (lib : Lib) (header : String) (v : Value)
    (ctx : hit.Hit) :
    (∀ e, (lib.converterConvert
        (.str (hit.Header.Get lib ctx.responseHeader header)) v).2 = some e →
      ((hit.newExpectSpecificHeader hit.defaultExpect header).Equal lib v).exec ctx =
        .error e) ∧
    ((lib.converterConvert (.str (hit.Header.Get lib ctx.responseHeader header)) v).2 = none →
      (((hit.newExpectSpecificHeader hit.defaultExpect header).Equal lib v).exec ctx = .ok () ↔
        lib.cmpEqual v (lib.converterConvert
          (.str (hit.Header.Get lib ctx.responseHeader header)) v).1 = true)) ∧
    ((lib.converterConvert (.str (hit.Header.Get lib ctx.responseHeader header)) v).2 = none →
      lib.cmpEqual v (lib.converterConvert
          (.str (hit.Header.Get lib ctx.responseHeader header)) v).1 = false →
      ((hit.newExpectSpecificHeader hit.defaultExpect header).Equal lib v).exec ctx =
        .error (minitest.stringJoin "\n" ["Not equal", minitest.actualExpectedDiff lib
          (lib.converterConvert (.str (hit.Header.Get lib ctx.responseHeader header)) v).1
          v])) := by
  rw [header_Equal_exec]
  refine ⟨?_, ?_, ?_⟩
  · intro e he
    rw [he]
    simp only [minitest.NoError, panicNow_nil]
    rfl
  · intro he
    rw [he]
    simp only [minitest.NoError]
    exact Equal_ok_iff lib _ _ []
  · intro he hc
    rw [he]
    simp only [minitest.NoError]
    show minitest.Equal lib _ _ [] = _
    simp [minitest.Equal, hc, panicNow_nil]

/-- The header `X-Int: 3` equals the integer 3, does not equal the integer 1, and the
header `X-Header: Hello` compared with an integer fails with the conversion error, by
C10. -/
theorem header_Equal_converts_then_compares_witness :
    ((hit.newExpectSpecificHeader hit.defaultExpect "X-Int").Equal exampleLib (.int 3)).exec
        ⟨[("X-Header", ["Hello"]), ("X-Int", ["3"])]⟩ = .ok () ∧
    ((hit.newExpectSpecificHeader hit.defaultExpect "X-Int").Equal exampleLib (.int 1)).exec
        ⟨[("X-Header", ["Hello"]), ("X-Int", ["3"])]⟩ =
      .error (minitest.stringJoin "\n" ["Not equal",
        minitest.actualExpectedDiff exampleLib (.int 3) (.int 1)]) ∧
    ((hit.newExpectSpecificHeader hit.defaultExpect "X-Header").Equal exampleLib
        (.int 1)).exec ⟨[("X-Header", ["Hello"]), ("X-Int", ["3"])]⟩ =
      .error "unable to convert string to int" :=
  ⟨((header_Equal_converts_then_compares exampleLib "X-Int" (.int 3)
      ⟨[("X-Header", ["Hello"]), ("X-Int", ["3"])]⟩).2.1 (by decide)).2 (by decide),
   (header_Equal_converts_then_compares exampleLib "X-Int" (.int 1)
      ⟨[("X-Header", ["Hello"]), ("X-Int", ["3"])]⟩).2.2 (by decide) (by decide),
   (header_Equal_converts_then_compares exampleLib "X-Header" (.int 1)
      ⟨[("X-Header", ["Hello"]), ("X-Int", ["3"])]⟩).1 _ (by decide)⟩

theorem StringSliceHasPrefixSliceLoop_iff (haystack needle : List String) (remaining i : Nat) :
    internal.StringSliceHasPrefixSliceLoop haystack needle remaining i = true ↔
      ∀ j, i ≤ j → j < i + remaining → haystack[j]? = needle[j]? := by
  induction remaining generalizing i with
  | zero =>
    simp only [internal.StringSliceHasPrefixSliceLoop, true_iff]
    intro j h1 h2
    omega
  | succ r ih =>
    rw [internal.StringSliceHasPrefixSliceLoop]
    by_cases h : haystack[i]? = needle[i]?
    · simp only [h, bne_self_eq_false, Bool.false_eq_true, if_false, ih]
      constructor
      · intro hj j h1 h2
        rcases Nat.eq_or_lt_of_le h1 with rfl | hlt
        · exact h
        · exact hj j hlt (by omega)
      · intro hj j h1 h2
        exact hj j (by omega) (by omega)
    · have hne : (haystack[i]? != needle[i]?) = true := by simpa using h
      simp only [hne, if_true, Bool.false_eq_true, false_iff]
      intro hj
      exact h (hj i (Nat.le_refl i) (by omega))

theorem StringSliceHasPrefixSlice_iff_index (haystack needle : List String) :
    internal.StringSliceHasPrefixSlice haystack needle = true ↔
      needle.length ≤ haystack.length ∧
        ∀ i, i < needle.length → haystack[i]? = needle[i]? := by
  unfold internal.StringSliceHasPrefixSlice
  by_cases h : needle.length > haystack.length
  · simp only [h, if_true, Bool.false_eq_true, false_iff]
    intro hc
    omega
  · simp only [h, if_false, StringSliceHasPrefixSliceLoop_iff]
    constructor
    · intro hj
      exact ⟨by omega, fun i hi => hj i (Nat.zero_le i) (by omega)⟩
    · rintro ⟨_, hj⟩ j _ h2
      exact hj j (by omega)

theorem StringSliceHasPrefixSlice_iff_isPrefix (haystack needle : List String) :
    internal.StringSliceHasPrefixSlice haystack needle = true ↔ needle <+: haystack := by
  rw [StringSliceHasPrefixSlice_iff_index, List.prefix_iff_eq_take]
  constructor
  · rintro ⟨hl, hj⟩
    apply List.ext_getElem?
    intro i
    by_cases hi : i < needle.length
    · rw [List.getElem?_take_of_lt hi]
      exact (hj i hi).symm
    · rw [List.getElem?_eq_none (by omega), List.getElem?_eq_none]
      simp only [List.length_take]
      omega
  · intro h
    have hl : needle.length ≤ haystack.length := by
      have := congrArg List.length h
      simp only [List.length_take] at this
      omega
    refine ⟨hl, fun i hi => ?_⟩
    conv_rhs => rw [h]
    rw [List.getElem?_take_of_lt hi]

/-- C11. `StringSliceHasPrefixSlice(haystack, needle)` is true exactly when the needle is
not longer than the haystack and agrees with it at every index of the needle.  The empty
needle is a prefix of every haystack, every list is a prefix of itself, and a needle
longer than the haystack is never a prefix. -/
theorem StringSliceHasPrefixSlice_iff_componentwise (haystack needle : List String) :
    (internal.StringSliceHasPrefixSlice haystack needle = true ↔
      needle.length ≤ haystack.length ∧
        ∀ (i : Nat) (h1 : i < needle.length) (h2 : i < haystack.length),
          haystack[i] = needle[i]) ∧
    internal.StringSliceHasPrefixSlice haystack [] = true ∧
    internal.StringSliceHasPrefixSlice haystack haystack = true ∧
    (haystack.length < needle.length →
      internal.StringSliceHasPrefixSlice haystack needle = false) := by
  refine ⟨?_, ?_, ?_, ?_⟩
  · rw [StringSliceHasPrefixSlice_iff_index]
    constructor
    · rintro ⟨hl, hj⟩
      refine ⟨hl, fun i h1 h2 => ?_⟩
      have := hj i h1
      rw [List.getElem?_eq_getElem h1, List.getElem?_eq_getElem h2] at this
      exact Option.some.inj this
    · rintro ⟨hl, hj⟩
      refine ⟨hl, fun i h1 => ?_⟩
      have h2 : i < haystack.length := by omega
      rw [List.getElem?_eq_getElem h1, List.getElem?_eq_getElem h2, hj i h1 h2]
  · rw [StringSliceHasPrefixSlice_iff_isPrefix]
    exact List.nil_prefix
  · rw [StringSliceHasPrefixSlice_iff_isPrefix]
  · intro h
    rw [← Bool.not_eq_true, StringSliceHasPrefixSlice_iff_index]
    rintro ⟨hl, _⟩
    omega

/-- The list `a, b` is a prefix of `a, b, c`, and `a, b, c, d` is not, by C11. -/
theorem StringSliceHasPrefixSlice_iff_componentwise_witness :
    internal.StringSliceHasPrefixSlice ["a", "b", "c"] ["a", "b"] = true ∧
    internal.StringSliceHasPrefixSlice ["a", "b", "c"] ["a", "b", "c", "d"] = false :=
  ⟨(StringSliceHasPrefixSlice_iff_componentwise ["a", "b", "c"] ["a", "b"]).1.2
      ⟨by decide, by decide⟩,
   (StringSliceHasPrefixSlice_iff_componentwise ["a", "b", "c"] ["a", "b", "c", "d"]).2.2.2
      (by decide)⟩

/-- C12. A clear stage built with a trailing argument is terminal.  Every method of
`Clear().Send(value)` and of `Clear().Expect().Body().JSON(value)` returns, whatever its
arguments, a step of the clear phase without path whose action leaves the run context
as it is and returns the fixed message of the stage as error; `Body` hands the same
failing step and message to the terminal body chain. -/
theorem final_clear_stage_always_fails (argEqual : Value → Value → Bool)
    (path : hit.clearPath) (body : hit.IClearExpectBody) (params : List Value)
    (hp : (internal.GetLastArgument params).2 = true) :
    (∀ (value : List Value) (fn : List hit.CallbackRef) (ctx : hit.HitSteps),
      ∀ step ∈ [(hit.newClearSend argEqual path params).Custom argEqual fn,
          (hit.newClearSend argEqual path params).JSON argEqual value,
          (hit.newClearSend argEqual path params).Header argEqual value,
          (hit.newClearSend argEqual path params).Interface argEqual value],
        step.When = hit.StepTime.CleanStep ∧ step.ClearPath = none ∧
        step.Exec ctx =
          (ctx, some "only usable with Clear().Send() not with Clear().Send(value)")) ∧
    (∀ (value : List Value) (ctx : hit.HitSteps),
      ∃ b : hit.finalClearSendBody,
        (hit.newClearSend argEqual path params).Body value = hit.IClearSendBody.final b ∧
        b.message = "only usable with Clear().Send() not with Clear().Send(value)" ∧
        b.IStep.ClearPath = none ∧
        b.IStep.Exec ctx =
          (ctx, some "only usable with Clear().Send() not with Clear().Send(value)")) ∧
    (∀ (value : List Value) (ctx : hit.HitSteps),
      ∀ step ∈ [(hit.newClearExpectBodyJSON argEqual body path params).Equal argEqual value,
          (hit.newClearExpectBodyJSON argEqual body path params).NotEqual argEqual value,
          (hit.newClearExpectBodyJSON argEqual body path params).Contains argEqual value,
          (hit.newClearExpectBodyJSON argEqual body path params).NotContains argEqual value],
        step.When = hit.StepTime.CleanStep ∧ step.ClearPath = none ∧
        step.Exec ctx =
          (ctx, some
            "only usable with Clear().Expect().Body().JSON() not with Clear().Expect().Body().JSON(value)")) := by
  refine ⟨?_, ?_, ?_⟩
  · intro value fn ctx step hs
    simp only [hit.newClearSend, hp, if_true, hit.IClearSend.Custom, hit.IClearSend.JSON,
      hit.IClearSend.Header, hit.IClearSend.Interface, hit.finalClearSend.Custom,
      hit.finalClearSend.JSON, hit.finalClearSend.Header, hit.finalClearSend.Interface,
      List.mem_cons, List.mem_singleton, List.not_mem_nil, or_false, or_self] at hs
    subst hs
    exact ⟨rfl, rfl, rfl⟩
  · intro value ctx
    simp only [hit.newClearSend, hp, if_true, hit.IClearSend.Body, hit.finalClearSend.Body]
    exact ⟨_, rfl, rfl, rfl, rfl⟩
  · intro value ctx step hs
    simp only [hit.newClearExpectBodyJSON, hp, if_true, hit.IClearExpectBodyJSON.Equal,
      hit.IClearExpectBodyJSON.NotEqual, hit.IClearExpectBodyJSON.Contains,
      hit.IClearExpectBodyJSON.NotContains, hit.finalClearExpectBodyJSON.Equal,
      hit.finalClearExpectBodyJSON.NotEqual, hit.finalClearExpectBodyJSON.Contains,
      hit.finalClearExpectBodyJSON.NotContains,
      List.mem_cons, List.mem_singleton, List.not_mem_nil, or_false, or_self] at hs
    subst hs
    exact ⟨rfl, rfl, rfl⟩

/-- The step `Clear().Send("x").Header("Content-Type")` fails with the fixed message and
keeps the declared step, by C12. -/
theorem final_clear_stage_always_fails_witness :
    (((hit.newClearSend goEq [⟨"Send", [.str "x"]⟩] [.str "x"]).Header goEq
        [.str "Content-Type"]).Exec
        ⟨[⟨0, some [⟨"Send", []⟩, ⟨"Header", [.str "Content-Type", .str "a"]⟩]⟩]⟩).2 =
      some "only usable with Clear().Send() not with Clear().Send(value)" :=
  congrArg Prod.snd
    (((final_clear_stage_always_fails goEq [⟨"Send", [.str "x"]⟩] ⟨⟩ [.str "x"] rfl).1
      [.str "Content-Type"] []
      ⟨[⟨0, some [⟨"Send", []⟩, ⟨"Header", [.str "Content-Type", .str "a"]⟩]⟩]⟩ _
      (by simp)).2.2)

/-- C13. Every method of an active clear chain addresses the path of the chain extended
by exactly one segment, named like the method and carrying the arguments of the call in
their order; for `Custom` the arguments are the callbacks, as many and in the same
order.  The path of the chain itself is the leading part of the new path. -/
theorem clear_chain_methods_push_one_segment (argEqual : Value → Value → Bool)
    (path : hit.clearPath) (body : hit.IClearExpectBody) (params value : List Value)
    (fn : List hit.CallbackRef) (hp : (internal.GetLastArgument params).2 = false) :
    (hit.newClearSend argEqual path params).Body value =
      hit.IClearSendBody.newClearSendBody (path ++ [⟨"Body", value⟩]) value ∧
    (hit.newClearSend argEqual path params).Interface argEqual value =
      hit.removeStep argEqual (path ++ [⟨"Interface", value⟩]) ∧
    (hit.newClearSend argEqual path params).Custom argEqual fn =
      hit.removeStep argEqual (path ++ [⟨"Custom", fn.map Value.func⟩]) ∧
    ((fn.map Value.func).length = fn.length ∧
      ∀ (i : Nat) (h : i < fn.length), (fn.map Value.func)[i]? = some (Value.func fn[i])) ∧
    (hit.newClearSend argEqual path params).JSON argEqual value =
      hit.removeStep argEqual (path ++ [⟨"JSON", value⟩]) ∧
    (hit.newClearSend argEqual path params).Header argEqual value =
      hit.removeStep argEqual (path ++ [⟨"Header", value⟩]) ∧
    (hit.newClearExpectBodyJSON argEqual body path params).Equal argEqual value =
      hit.removeStep argEqual (path ++ [⟨"Equal", value⟩]) ∧
    (hit.newClearExpectBodyJSON argEqual body path params).NotEqual argEqual value =
      hit.removeStep argEqual (path ++ [⟨"NotEqual", value⟩]) ∧
    (hit.newClearExpectBodyJSON argEqual body path params).Contains argEqual value =
      hit.removeStep argEqual (path ++ [⟨"Contains", value⟩]) ∧
    (hit.newClearExpectBodyJSON argEqual body path params).NotContains argEqual value =
      hit.removeStep argEqual (path ++ [⟨"NotContains", value⟩]) ∧
    (∀ name, (hit.removeStep argEqual (path ++ [⟨name, value⟩])).ClearPath =
        some (path ++ [⟨name, value⟩]) ∧
      (path ++ [(⟨name, value⟩ : hit.pathPart)]).length = path.length + 1 ∧
      (path ++ [(⟨name, value⟩ : hit.pathPart)]).take path.length = path) := by
  have h1 : hit.newClearSend argEqual path params = .active ⟨path⟩ := by
    simp [hit.newClearSend, hp]
  have h2 : hit.newClearExpectBodyJSON argEqual body path params = .active ⟨body, path⟩ := by
    simp [hit.newClearExpectBodyJSON, hp]
  rw [h1, h2]
  refine ⟨rfl, rfl, rfl, ⟨by simp, fun i h => by simp [h]⟩, rfl, rfl, rfl, rfl, rfl, rfl,
    fun name => ⟨rfl, by simp, by simp⟩⟩

/-- The call `Clear().Send().Header("Content-Type")` addresses the path `Send`, `Header`
with that argument, by C13. -/
theorem clear_chain_methods_push_one_segment_witness :
    ((hit.newClearSend goEq [⟨"Send", []⟩] []).Header goEq [.str "Content-Type"]).ClearPath =
      some [⟨"Send", []⟩, ⟨"Header", [.str "Content-Type"]⟩] :=
  congrArg hit.hitStep.ClearPath
    (clear_chain_methods_push_one_segment goEq [⟨"Send", []⟩] ⟨⟩ [] [.str "Content-Type"] []
      rfl).2.2.2.2.2.1

/-- C14. On a chain with a bound header `Get(name)` fails with the usage error that `Get`
can only be used if no header was already specified; on a chain without bound header it
returns a chain bound to `name` with the same expect chain and run context. -/
theorem expectHeaders_Get_usage_error (hdr : hit.expectHeaders) (name : String) :
    (hdr.specificHeader ≠ "" →
      hdr.Get name = .error "Get can only be used if no header was already specified") ∧
    (hdr.specificHeader = "" →
      hdr.Get name =
        .ok { Hit := hdr.Hit, expect := hdr.expect, specificHeader := name }) := by
  constructor
  · intro h
    simp [hit.expectHeaders.Get, h, hit.errortraceFailNow]
  · intro h
    simp [hit.expectHeaders.Get, h]
    rfl

/-- The chain `Headers("Y").Get("Y")` fails and `Headers().Get("Y")` is bound to `Y`,
by C14. -/
theorem expectHeaders_Get_usage_error_witness :
    (hit.expectHeaders.Get ⟨⟨[]⟩, hit.defaultExpect, "Y"⟩ "Y" =
      .error "Get can only be used if no header was already specified") ∧
    (hit.expectHeaders.Get ⟨⟨[]⟩, hit.defaultExpect, ""⟩ "Y" =
      .ok ⟨⟨[]⟩, hit.defaultExpect, "Y"⟩) :=
  ⟨(expectHeaders_Get_usage_error ⟨⟨[]⟩, hit.defaultExpect, "Y"⟩ "Y").1 (by decide),
   (expectHeaders_Get_usage_error ⟨⟨[]⟩, hit.defaultExpect, ""⟩ "Y").2 rfl⟩

theorem mem_removeSteps (argEqual : Value → Value → Bool) (run : hit.HitSteps)
    (path : hit.clearPath) (s : hit.declaredStep) :
    s ∈ (hit.removeSteps argEqual run path).1.steps ↔
      s ∈ run.steps ∧ ∀ q, s.ClearPath = some q → hit.clearPath.Contains argEqual q path = false := by
  simp only [hit.removeSteps, List.mem_filter]
  cases s.ClearPath with
  | none => simp
  | some p => simp

theorem removeSteps_sublist (argEqual : Value → Value → Bool) (run : hit.HitSteps)
    (path : hit.clearPath) :
    List.Sublist (hit.removeSteps argEqual run path).1.steps run.steps :=
  List.filter_sublist _

theorem names_push (path : hit.clearPath) (name : String) (args : List Value) :
    hit.clearPath.names (path ++ [⟨name, args⟩]) = hit.clearPath.names path ++ [name] := by
  simp [hit.clearPath.names]

theorem argumentsDeepEqual_iff (argEqual : Value → Value → Bool)
    (stepArgs supplied : List Value) :
    hit.argumentsDeepEqual argEqual stepArgs supplied = true ↔
      stepArgs.length = supplied.length ∧
        ∀ (i : Nat) (h1 : i < stepArgs.length) (h2 : i < supplied.length),
          argEqual stepArgs[i] supplied[i] = true := by
  induction stepArgs generalizing supplied with
  | nil =>
    cases supplied with
    | nil => simp [hit.argumentsDeepEqual]
    | cons b bs => simp [hit.argumentsDeepEqual]
  | cons a as ih =>
    cases supplied with
    | nil => simp [hit.argumentsDeepEqual]
    | cons b bs =>
      simp only [hit.argumentsDeepEqual, Bool.and_eq_true, ih, List.length_cons,
        Nat.add_right_cancel_iff]
      constructor
      · rintro ⟨h0, hl, hj⟩
        refine ⟨hl, fun i h1 h2 => ?_⟩
        cases i with
        | zero => simpa using h0
        | succ k => simpa using hj k (by omega) (by omega)
      · rintro ⟨hl, hj⟩
        refine ⟨by simpa using hj 0 (by omega) (by omega), hl, fun i h1 h2 => ?_⟩
        simpa using hj (i + 1) (by omega) (by omega)

theorem argumentsMatch_of_supplied (argEqual : Value → Value → Bool)
    (stepArgs supplied : List Value) (hs : supplied ≠ []) :
    hit.argumentsMatch argEqual stepArgs supplied =
      hit.argumentsDeepEqual argEqual stepArgs supplied := by
  cases supplied with
  | nil => exact absurd rfl hs
  | cons b bs => rfl

theorem Contains_of_names_eq_of_no_arguments (argEqual : Value → Value → Bool)
    (q path : hit.clearPath) (name : String)
    (hq : hit.clearPath.names q = hit.clearPath.names (path ++ [⟨name, []⟩])) :
    hit.clearPath.Contains argEqual q (path ++ [⟨name, []⟩]) = true := by
  have hlen : q.length = path.length + 1 := by
    have := congrArg List.length hq
    simpa [hit.clearPath.names] using this
  have hidx : path.length < q.length := by omega
  unfold hit.clearPath.Contains
  rw [Bool.and_eq_true]
  constructor
  · rw [StringSliceHasPrefixSlice_iff_isPrefix, hq]
  · simp only [List.getLast?_concat, List.length_append, List.length_singleton,
      Nat.add_sub_cancel, List.getElem?_eq_getElem hidx]
    rfl

theorem Contains_push_push (argEqual : Value → Value → Bool) (path : hit.clearPath)
    (name : String) (stepArgs supplied : List Value) :
    hit.clearPath.Contains argEqual (path ++ [⟨name, stepArgs⟩]) (path ++ [⟨name, supplied⟩]) =
      hit.argumentsMatch argEqual stepArgs supplied := by
  unfold hit.clearPath.Contains
  have hp : internal.StringSliceHasPrefixSlice
      (hit.clearPath.names (path ++ [⟨name, stepArgs⟩]))
      (hit.clearPath.names (path ++ [⟨name, supplied⟩])) = true := by
    rw [StringSliceHasPrefixSlice_iff_isPrefix, names_push, names_push]
  rw [hp, Bool.true_and]
  simp only [List.getLast?_concat, List.length_append, List.length_singleton,
    Nat.add_sub_cancel, List.getElem?_concat_length]

theorem Contains_elim (argEqual : Value → Value → Bool) (q path : hit.clearPath)
    (last : hit.pathPart)
    (h : hit.clearPath.Contains argEqual q (path ++ [last]) = true) :
    hit.clearPath.names (path ++ [last]) <+: hit.clearPath.names q ∧
      ∃ part, q[path.length]? = some part ∧
        hit.argumentsMatch argEqual part.Arguments last.Arguments = true := by
  unfold hit.clearPath.Contains at h
  rw [Bool.and_eq_true, StringSliceHasPrefixSlice_iff_isPrefix] at h
  refine ⟨h.1, ?_⟩
  have h2 := h.2
  simp only [List.getLast?_concat, List.length_append, List.length_singleton,
    Nat.add_sub_cancel] at h2
  cases hq : q[path.length]? with
  | none => simp [hq] at h2
  | some part =>
    rw [hq] at h2
    exact ⟨part, rfl, h2⟩

theorem Contains_intro (argEqual : Value → Value → Bool) (q path : hit.clearPath)
    (last part : hit.pathPart)
    (hn : hit.clearPath.names (path ++ [last]) <+: hit.clearPath.names q)
    (hpart : q[path.length]? = some part)
    (hm : hit.argumentsMatch argEqual part.Arguments last.Arguments = true) :
    hit.clearPath.Contains argEqual q (path ++ [last]) = true := by
  unfold hit.clearPath.Contains
  rw [Bool.and_eq_true, StringSliceHasPrefixSlice_iff_isPrefix]
  refine ⟨hn, ?_⟩
  simp only [List.getLast?_concat, List.length_append, List.length_singleton,
    Nat.add_sub_cancel, hpart]
  exact hm

theorem active_Equal_eq (argEqual : Value → Value → Bool) (body : hit.IClearExpectBody)
    (path : hit.clearPath) (value : List Value) :
    (hit.newClearExpectBodyJSON argEqual body path []).Equal argEqual value =
      hit.removeStep argEqual (path ++ [⟨"Equal", value⟩]) := rfl

theorem removed_of_Contains (argEqual : Value → Value → Bool) (run : hit.HitSteps)
    (path q : hit.clearPath) (s : hit.declaredStep) (hq : s.ClearPath = some q)
    (hc : hit.clearPath.Contains argEqual q path = true) :
    s ∉ ((hit.removeStep argEqual path).Exec run).1.steps := by
  show s ∉ (hit.removeSteps argEqual run path).1.steps
  rw [mem_removeSteps]
  rintro ⟨_, h⟩
  rw [h q hq] at hc
  exact Bool.false_ne_true hc

theorem kept_of_not_Contains (argEqual : Value → Value → Bool) (run : hit.HitSteps)
    (path q : hit.clearPath) (s : hit.declaredStep) (hs : s ∈ run.steps)
    (hq : s.ClearPath = some q) (hc : hit.clearPath.Contains argEqual q path = false) :
    s ∈ ((hit.removeStep argEqual path).Exec run).1.steps := by
  show s ∈ (hit.removeSteps argEqual run path).1.steps
  rw [mem_removeSteps]
  refine ⟨hs, fun p hp => ?_⟩
  rw [hq] at hp
  cases hp
  exact hc

/-- C15. The step built by `Clear().Expect().Body().JSON().Equal()`, a clear call without
arguments, reports no error and removes every step whose path has the names of the clear
path, whatever the arguments of its final segment are; of the steps declared by
`Equal("Name")` and `Equal("Id")` none is left. -/
theorem clear_without_arguments_removes_all_variants (argEqual : Value → Value → Bool)
    (body : hit.IClearExpectBody) (path : hit.clearPath) (run : hit.HitSteps) :
    (((hit.newClearExpectBodyJSON argEqual body path []).Equal argEqual []).Exec run).2 =
      none ∧
    (∀ s ∈ run.steps, ∀ q, s.ClearPath = some q →
      hit.clearPath.names q = hit.clearPath.names (path.Push "Equal" []) →
      s ∉ (((hit.newClearExpectBodyJSON argEqual body path []).Equal argEqual []).Exec
        run).1.steps) ∧
    (((hit.newClearExpectBodyJSON argEqual body hit.expectBodyJSONPath []).Equal argEqual
        []).Exec
      ⟨[hit.declaredExpectBodyJSONEqual 0 [.str "Name"],
        hit.declaredExpectBodyJSONEqual 1 [.str "Id"]]⟩).1.steps = [] := by
  refine ⟨rfl, ?_, ?_⟩
  · intro s _ q hq hn
    rw [active_Equal_eq]
    exact removed_of_Contains argEqual run _ q s hq
      (Contains_of_names_eq_of_no_arguments argEqual q path "Equal" hn)
  · rw [active_Equal_eq]
    show (hit.removeSteps argEqual _ _).1.steps = []
    simp only [hit.removeSteps, hit.declaredExpectBodyJSONEqual, hit.clearPath.Push,
      Contains_push_push]
    rfl

/-- A step declared by `Equal("Name", "Joe")` is removed by the clear call without
arguments, by C15. -/
theorem clear_without_arguments_removes_all_variants_witness :
    hit.declaredExpectBodyJSONEqual 0 [.str "Name", .str "Joe"] ∉
      (((hit.newClearExpectBodyJSON goEq ⟨⟩ hit.expectBodyJSONPath []).Equal goEq []).Exec
        ⟨[hit.declaredExpectBodyJSONEqual 0 [.str "Name", .str "Joe"]]⟩).1.steps :=
  (clear_without_arguments_removes_all_variants goEq ⟨⟩ hit.expectBodyJSONPath
    ⟨[hit.declaredExpectBodyJSONEqual 0 [.str "Name", .str "Joe"]]⟩).2.1
    _ (List.mem_singleton.2 rfl) _ rfl rfl

/-- C16. The step built by `Clear().Expect().Body().JSON().Equal(supplied...)` with
supplied arguments removes a step exactly when the path of the step starts with the
names of the clear path and the arguments of the step at the final segment of the clear
path are deep-equal to the supplied ones: as many arguments, equal one by one.  The
steps left keep their order, and of the steps declared by `Equal("Name")` and
`Equal("Id")` the call `Equal("Name")` removes the first and leaves the second. -/
theorem clear_with_arguments_removes_only_exact_match (argEqual : Value → Value → Bool)
    (body : hit.IClearExpectBody) (path : hit.clearPath) (supplied : List Value)
    (run : hit.HitSteps) (hsup : supplied ≠ []) :
    (∀ s ∈ run.steps,
      (s ∉ (((hit.newClearExpectBodyJSON argEqual body path []).Equal argEqual
          supplied).Exec run).1.steps ↔
        ∃ q part, s.ClearPath = some q ∧
          hit.clearPath.names (path.Push "Equal" supplied) <+: hit.clearPath.names q ∧
          q[path.length]? = some part ∧
          part.Arguments.length = supplied.length ∧
          ∀ (i : Nat) (h1 : i < part.Arguments.length) (h2 : i < supplied.length),
            argEqual part.Arguments[i] supplied[i] = true)) ∧
    List.Sublist
      (((hit.newClearExpectBodyJSON argEqual body path []).Equal argEqual supplied).Exec
        run).1.steps run.steps ∧
    (argEqual (.str "Name") (.str "Name") = true →
      argEqual (.str "Id") (.str "Name") = false →
      (((hit.newClearExpectBodyJSON argEqual body hit.expectBodyJSONPath []).Equal argEqual
          [.str "Name"]).Exec
        ⟨[hit.declaredExpectBodyJSONEqual 0 [.str "Name"],
          hit.declaredExpectBodyJSONEqual 1 [.str "Id"]]⟩).1.steps =
        [hit.declaredExpectBodyJSONEqual 1 [.str "Id"]]) := by
  refine ⟨?_, ?_, ?_⟩
  · intro s hs
    rw [active_Equal_eq]
    change s ∉ (hit.removeSteps argEqual run _).1.steps ↔ _
    rw [mem_removeSteps]
    constructor
    · intro hnot
      have : ∃ q, s.ClearPath = some q ∧
          hit.clearPath.Contains argEqual q (path ++ [⟨"Equal", supplied⟩]) = true := by
        by_contra hcon
        apply hnot
        refine ⟨hs, fun q hq => ?_⟩
        cases hc : hit.clearPath.Contains argEqual q (path ++ [⟨"Equal", supplied⟩]) with
        | false => rfl
        | true => exact absurd ⟨q, hq, hc⟩ hcon
      obtain ⟨q, hq, hc⟩ := this
      obtain ⟨hn, part, hpart, hm⟩ := Contains_elim argEqual q path _ hc
      rw [argumentsMatch_of_supplied argEqual _ _ hsup, argumentsDeepEqual_iff] at hm
      exact ⟨q, part, hq, hn, hpart, hm.1, hm.2⟩
    · rintro ⟨q, part, hq, hn, hpart, hl, hj⟩ ⟨_, hkeep⟩
      have hc : hit.clearPath.Contains argEqual q (path ++ [⟨"Equal", supplied⟩]) = true := by
        refine Contains_intro argEqual q path _ part hn hpart ?_
        rw [argumentsMatch_of_supplied argEqual _ _ hsup, argumentsDeepEqual_iff]
        exact ⟨hl, hj⟩
      rw [hkeep q hq] at hc
      exact Bool.false_ne_true hc
  · rw [active_Equal_eq]
    exact removeSteps_sublist argEqual run _
  · intro h1 h2
    rw [active_Equal_eq]
    show (hit.removeSteps argEqual _ _).1.steps = _
    have e1 : hit.clearPath.Contains argEqual
        (hit.expectBodyJSONPath ++ [⟨"Equal", [.str "Name"]⟩])
        (hit.expectBodyJSONPath ++ [⟨"Equal", [.str "Name"]⟩]) = true := by
      rw [Contains_push_push]
      simp [hit.argumentsMatch, hit.argumentsDeepEqual, h1]
    have e2 : hit.clearPath.Contains argEqual
        (hit.expectBodyJSONPath ++ [⟨"Equal", [.str "Id"]⟩])
        (hit.expectBodyJSONPath ++ [⟨"Equal", [.str "Name"]⟩]) = false := by
      rw [Contains_push_push]
      simp [hit.argumentsMatch, hit.argumentsDeepEqual, h2]
    simp [hit.removeSteps, hit.declaredExpectBodyJSONEqual, hit.clearPath.Push, List.filter,
      e1, e2]

/-- With `goEq` as the equality of arguments, `Equal("Name")` removes the step declared
by `Equal("Name")` and leaves the step declared by `Equal("Id")`, by C16. -/
theorem clear_with_arguments_removes_only_exact_match_witness :
    (((hit.newClearExpectBodyJSON goEq ⟨⟩ hit.expectBodyJSONPath []).Equal goEq
        [.str "Name"]).Exec
      ⟨[hit.declaredExpectBodyJSONEqual 0 [.str "Name"],
        hit.declaredExpectBodyJSONEqual 1 [.str "Id"]]⟩).1.steps =
      [hit.declaredExpectBodyJSONEqual 1 [.str "Id"]] :=
  (clear_with_arguments_removes_only_exact_match goEq ⟨⟩ hit.expectBodyJSONPath
    [.str "Name"]
    ⟨[hit.declaredExpectBodyJSONEqual 0 [.str "Name"],
      hit.declaredExpectBodyJSONEqual 1 [.str "Id"]]⟩ (by simp)).2.2
    (by decide) (by decide)

theorem Len_error_message (lib : Lib) (object : Value) (n : Int)
    (hk : (internal.GetValue object).Kind ∈
      [Kind.Array, Kind.Chan, Kind.Map, Kind.Slice, Kind.String])
    (hl : ((internal.GetValue object).Len : Int) ≠ n) :
    minitest.Len lib object n [] =
      .error (lib.ppSprint object ++ " should have " ++ toString n ++ " item(s), but has " ++
        toString ((internal.GetValue object).Len : Int)) := by
  unfold minitest.Len
  have hne : (((internal.GetValue object).Len : Int) != n) = true := by simpa using hl
  cases h : (internal.GetValue object).Kind <;> simp [h] at hk <;>
    simp only [h, hne, if_true, panicNow_nil]

theorem Empty_error_message (lib : Lib) (object : Value)
    (hk : (internal.GetValue object).Kind ∈
      [Kind.Array, Kind.Chan, Kind.Map, Kind.Slice, Kind.String])
    (hl : (internal.GetValue object).Len ≠ 0) :
    minitest.Empty lib object [] =
      .error (lib.ppSprint object ++ " should be empty, but has " ++
        toString (internal.GetValue object).Len ++ " item(s)") := by
  unfold minitest.Empty
  have hne : ((internal.GetValue object).Len != 0) = true := by simpa using hl
  cases h : (internal.GetValue object).Kind <;> simp [h] at hk <;>
    simp only [h, hne, if_true, panicNow_nil]

theorem GetValue_str_measurable (s : String) :
    (internal.GetValue (.str s)).Kind ∈
      [Kind.Array, Kind.Chan, Kind.Map, Kind.Slice, Kind.String] := by
  simp [internal.GetValue, ValueOf, internal.GetElem, Value.Kind]

/-- C18, as stated, fails: against the header value `Hello` the step `Len(0)` fails with
the diagnostic that the value should have 0 item(s), but has 5, and the phrase
`has 5 item(s)` does not occur in it. -/
theorem header_Len_zero_diagnostic_lacks_item_phrase :
    ((hit.newExpectSpecificHeader hit.defaultExpect "X-Header").Len exampleLib 0).exec
        ⟨[("X-Header", ["Hello"])]⟩ =
      .error "\"Hello\" should have 0 item(s), but has 5" ∧
    stringsContains "\"Hello\" should have 0 item(s), but has 5" "has 5 item(s)" = false :=
  ⟨rfl, by decide⟩

/-- C18, amended. Against a header value of length 5 the step `Len(5)` succeeds and the
step `Len(0)` fails with the diagnostic that the rendered value should have 0 item(s),
but has 5. -/
theorem header_Len_five_succeeds_zero_reports_has_five (lib : Lib) (header : String)
    (ctx : hit.Hit)
    (h5 : (hit.Header.Get lib ctx.responseHeader header).utf8ByteSize = 5) :
    ((hit.newExpectSpecificHeader hit.defaultExpect header).Len lib 5).exec ctx = .ok () ∧
    ((hit.newExpectSpecificHeader hit.defaultExpect header).Len lib 0).exec ctx =
      .error (lib.ppSprint (.str (hit.Header.Get lib ctx.responseHeader header)) ++
        " should have 0 item(s), but has 5") := by
  constructor
  · show minitest.Len lib (.str (hit.Header.Get lib ctx.responseHeader header)) 5 [] = _
    rw [Len_ok_iff]
    refine ⟨GetValue_str_measurable _, ?_⟩
    show ((hit.Header.Get lib ctx.responseHeader header).utf8ByteSize : Int) = 5
    rw [h5]
    rfl
  · show minitest.Len lib (.str (hit.Header.Get lib ctx.responseHeader header)) 0 [] = _
    have hl : (internal.GetValue (.str (hit.Header.Get lib ctx.responseHeader header))).Len
        = 5 := h5
    rw [Len_error_message lib _ 0 (GetValue_str_measurable _) (by rw [hl]; decide), hl]
    simp only [String.append_assoc]
    rfl

/-- Against the header `X-Header: Hello` the step `Len(5)` succeeds and `Len(0)` fails
with the diagnostic of the test, by the amended C18. -/
theorem header_Len_five_succeeds_zero_reports_has_five_witness :
    ((hit.newExpectSpecificHeader hit.defaultExpect "X-Header").Len exampleLib 5).exec
        ⟨[("X-Header", ["Hello"])]⟩ = .ok () ∧
    ((hit.newExpectSpecificHeader hit.defaultExpect "X-Header").Len exampleLib 0).exec
        ⟨[("X-Header", ["Hello"])]⟩ =
      .error ("\"Hello\"" ++ " should have 0 item(s), but has 5") :=
  header_Len_five_succeeds_zero_reports_has_five exampleLib "X-Header"
    ⟨[("X-Header", ["Hello"])]⟩ (by decide)

/-- C19. For a measurable object of length `l`, `Len(object, n)` with `n` different from
`l` fails with the message that the rendered object should have `n` item(s), but has
`l`, and `Empty(object)` with `l` not zero fails with the message that it should be
empty, but has `l` item(s).  When `Hello` is rendered in double quotes these are the two
messages of the header tests. -/
theorem length_diagnostics_report_actual_length (lib : Lib) (object : Value) (n : Int)
    (hk : (internal.GetValue object).Kind ∈
      [Kind.Array, Kind.Chan, Kind.Map, Kind.Slice, Kind.String]) :
    (((internal.GetValue object).Len : Int) ≠ n →
      minitest.Len lib object n [] =
        .error (lib.ppSprint object ++ " should have " ++ toString n ++
          " item(s), but has " ++ toString (internal.GetValue object).Len)) ∧
    ((internal.GetValue object).Len ≠ 0 →
      minitest.Empty lib object [] =
        .error (lib.ppSprint object ++ " should be empty, but has " ++
          toString (internal.GetValue object).Len ++ " item(s)")) ∧
    (lib.ppSprint (.str "Hello") = "\"Hello\"" →
      minitest.Len lib (.str "Hello") 0 [] =
        .error "\"Hello\" should have 0 item(s), but has 5" ∧
      minitest.Empty lib (.str "Hello") [] =
        .error "\"Hello\" should be empty, but has 5 item(s)") := by
  refine ⟨fun hl => Len_error_message lib object n hk hl,
    fun hl => Empty_error_message lib object hk hl, fun hr => ⟨?_, ?_⟩⟩
  · rw [Len_error_message lib (.str "Hello") 0 (GetValue_str_measurable _) (by decide), hr]
    rfl
  · rw [Empty_error_message lib (.str "Hello") (GetValue_str_measurable _) (by decide), hr]
    rfl

/-- The two messages for the header value `Hello`, by C19. -/
theorem length_diagnostics_report_actual_length_witness :
    minitest.Len exampleLib (.str "Hello") 0 [] =
      .error "\"Hello\" should have 0 item(s), but has 5" ∧
    minitest.Empty exampleLib (.str "Hello") [] =
      .error "\"Hello\" should be empty, but has 5 item(s)" :=
  (length_diagnostics_report_actual_length exampleLib (.str "Hello") 0
    (GetValue_str_measurable _)).2.2 rfl

/-- C20. On a string haystack `Contains` gives a boolean for every needle: `false` for a
nil needle and for a needle whose conversion to a string fails, the result of
`strings.Contains` otherwise.  For the haystack `Hello World` and the needle 5 the
result is `false`, whether the conversion of 5 fails or gives its decimal text. -/
theorem Contains_string_haystack_defined (lib : Lib) (s : String) (needle : Value) :
    internal.Contains lib (.str s) needle =
      (!needle.isNil && !(lib.convertString needle).2.isSome &&
        stringsContains s (lib.convertString needle).1) ∧
    ((lib.convertString (.int 5)).2 ≠ none ∨ (lib.convertString (.int 5)).1 = "5" →
      internal.Contains lib (.str "Hello World") (.int 5) = false) := by
  have key : ∀ (t : String) (n : Value), internal.Contains lib (.str t) n =
      (!n.isNil && !(lib.convertString n).2.isSome &&
        stringsContains t (lib.convertString n).1) := by
    intro t n
    cases hn : n.isNil
    · rw [Contains_of_not_nil lib (.str t) n rfl hn]
      simp only [Value.Kind, Value.GoString, internal.stringContains]
      cases (lib.convertString n).2 <;> simp
    · cases n <;> simp_all [internal.Contains, Value.isNil]
  refine ⟨key s needle, fun h => ?_⟩
  rw [key]
  rcases h with h | h
  · cases hc : (lib.convertString (.int 5)).2 with
    | none => exact absurd hc h
    | some e => simp [Value.isNil]
  · rw [h]
    have : stringsContains "Hello World" "5" = false := by decide
    simp [this]

/-- With the decimal conversion `Contains("Hello World", 5)` is `false`, by C20. -/
theorem Contains_string_haystack_defined_witness :
    internal.Contains exampleLib (.str "Hello World") (.int 5) = false :=
  (Contains_string_haystack_defined exampleLib "Hello World" (.int 5)).2 (Or.inr (by decide))

theorem GetElemLoop_of_layers_le (fuel : Nat) (r : Value) (h : r.layers ≤ fuel) :
    internal.GetElemLoop fuel r = some (internal.GetElem r) := by
  induction fuel generalizing r with
  | zero =>
    cases r <;> simp [Value.layers] at h <;> rfl
  | succ n ih =>
    cases r with
    | ptr a t =>
      have ht : t.layers ≤ n := by
        simp only [Value.layers] at h
        omega
      exact ih t ht
    | iface v =>
      have hv : v.layers ≤ n := by
        simp only [Value.layers] at h
        omega
      exact ih v hv
    | nilPtr => exact ih .nil (Nat.zero_le n)
    | _ => rfl

theorem GetElem_kind_of_layers_le (n : Nat) (r : Value) (h : r.layers ≤ n) :
    (internal.GetElem r).Kind ≠ Kind.Ptr ∧ (internal.GetElem r).Kind ≠ Kind.Interface := by
  induction n generalizing r with
  | zero =>
    cases r <;> simp [Value.layers] at h <;> simp [internal.GetElem, Value.Kind]
  | succ n ih =>
    cases r with
    | ptr a t =>
      have ht : t.layers ≤ n := by
        simp only [Value.layers] at h
        omega
      exact ih t ht
    | iface v =>
      have hv : v.layers ≤ n := by
        simp only [Value.layers] at h
        omega
      exact ih v hv
    | _ => simp [internal.GetElem, Value.Kind]

theorem GetElem_of_base (base : Value) (h1 : base.Kind ≠ Kind.Ptr)
    (h2 : base.Kind ≠ Kind.Interface) : internal.GetElem base = base := by
  cases base <;> simp [Value.Kind] at h1 h2 <;> rfl

theorem GetElem_wrapLayers (ls : List Layer) (base : Value) :
    internal.GetElem (wrapLayers ls base) = internal.GetElem base := by
  induction ls with
  | nil => rfl
  | cons l ls ih =>
    cases l with
    | ptr a => exact ih
    | iface => exact ih

/-- C21. The loop of `GetElem` ends on every value after as many iterations as the value
has pointer and interface layers, and returns `GetElem r`, whose kind is neither `Ptr`
nor `Interface`.  For a valid base value that is no pointer and no interface, wrapped in
any number of pointers that are not nil and of interfaces, `GetValue` returns the base
value: a valid value of the kind of the base value. -/
theorem GetElem_reaches_base_value (r : Value) :
    (∀ fuel, r.layers ≤ fuel → internal.GetElemLoop fuel r = some (internal.GetElem r)) ∧
    (internal.GetElem r).Kind ≠ Kind.Ptr ∧
    (internal.GetElem r).Kind ≠ Kind.Interface ∧
    (∀ (ls : List Layer) (base : Value), base.IsValid = true → base.Kind ≠ Kind.Ptr →
      base.Kind ≠ Kind.Interface →
      internal.GetValue (wrapLayers ls base) = base ∧
      (internal.GetValue (wrapLayers ls base)).IsValid = true ∧
      (internal.GetValue (wrapLayers ls base)).Kind = base.Kind) := by
  refine ⟨fun fuel h => GetElemLoop_of_layers_le fuel r h,
    (GetElem_kind_of_layers_le r.layers r (Nat.le_refl _)).1,
    (GetElem_kind_of_layers_le r.layers r (Nat.le_refl _)).2, ?_⟩
  intro ls base hv h1 h2
  have h : internal.GetValue (wrapLayers ls base) = base := by
    show internal.GetElem (wrapLayers ls base) = base
    rw [GetElem_wrapLayers, GetElem_of_base base h1 h2]
  rw [h]
  exact ⟨rfl, hv, rfl⟩

/-- The four values of the test of `GetValue`: a string, a pointer to a string, a pointer
to an interface holding a string, and the same pointer held in an interface, all reach a
valid value of kind `String`; the loop ends within two iterations; by C21. -/
theorem GetElem_reaches_base_value_witness :
    (internal.GetValue (.str "Hello")).IsValid = true ∧
    (internal.GetValue (.str "Hello")).Kind = Kind.String ∧
    (internal.GetValue (.ptr 1 (.str "Hello"))).IsValid = true ∧
    (internal.GetValue (.ptr 1 (.str "Hello"))).Kind = Kind.String ∧
    (internal.GetValue (.ptr 1 (.iface (.str "Hello")))).IsValid = true ∧
    (internal.GetValue (.ptr 1 (.iface (.str "Hello")))).Kind = Kind.String ∧
    internal.GetElemLoop 2 (.ptr 1 (.iface (.str "Hello"))) = some (.str "Hello") :=
  ⟨((GetElem_reaches_base_value .nil).2.2.2 [] (.str "Hello") rfl (by decide)
      (by decide)).2.1,
   ((GetElem_reaches_base_value .nil).2.2.2 [] (.str "Hello") rfl (by decide)
      (by decide)).2.2,
   ((GetElem_reaches_base_value .nil).2.2.2 [.ptr 1] (.str "Hello") rfl (by decide)
      (by decide)).2.1,
   ((GetElem_reaches_base_value .nil).2.2.2 [.ptr 1] (.str "Hello") rfl (by decide)
      (by decide)).2.2,
   ((GetElem_reaches_base_value .nil).2.2.2 [.ptr 1, .iface] (.str "Hello") rfl (by decide)
      (by decide)).2.1,
   ((GetElem_reaches_base_value .nil).2.2.2 [.ptr 1, .iface] (.str "Hello") rfl (by decide)
      (by decide)).2.2,
   (GetElem_reaches_base_value (.ptr 1 (.iface (.str "Hello")))).1 2 (by decide)⟩

theorem errortraceContains_ok_iff (traceFormat : String → String) (lib : Lib)
    (object contains : Value) :
    hit.errortraceContains traceFormat lib object contains = .ok () ↔
      internal.Contains lib object contains = true := by
  rw [← Contains_ok_iff lib object contains []]
  unfold hit.errortraceContains
  cases minitest.Contains lib object contains [] with
  | error e => simp
  | ok u => simp

/-- C22. On a chain without bound header `OneOf(values...)` fails while the step is
declared, with the usage error that `OneOf` can only be used if a header was already
specified.  On a chain with a bound header it does not fail and builds a step that
succeeds exactly when `internal.Contains` finds the value of the bound header among
`values`. -/
theorem expectHeaders_OneOf_needs_bound_header (traceFormat : String → String) (lib : Lib)
    (hdr : hit.expectHeaders) (values : List Value) :
    (hdr.specificHeader = "" →
      hdr.OneOf traceFormat lib values =
        .error "OneOf can only be used if a header was already specified") ∧
    (hdr.specificHeader ≠ "" →
      ∃ step : hit.IStep, hdr.OneOf traceFormat lib values = .ok step ∧
        (hdr.expect = hit.defaultExpect →
          ∀ ctx : hit.Hit, step.exec ctx = .ok () ↔
            internal.Contains lib (.slice values)
              (.str (hit.Header.Get lib ctx.responseHeader hdr.specificHeader)) = true)) := by
  constructor
  · intro h
    simp [hit.expectHeaders.OneOf, h, hit.errortraceFailNow]
  · intro h
    refine ⟨hdr.expect.Custom fun ctx =>
      hit.errortraceContains traceFormat lib (.slice values)
        (hdr.value lib ctx.responseHeader), ?_, ?_⟩
    · simp [hit.expectHeaders.OneOf, h]
      rfl
    · intro he ctx
      rw [he]
      show hit.errortraceContains traceFormat lib (.slice values)
        (hdr.value lib ctx.responseHeader) = .ok () ↔ _
      rw [errortraceContains_ok_iff]
      simp [hit.expectHeaders.value, h]

/-- The chain `Headers().OneOf("A", "B")` fails while it is declared, and the step of
`Headers("Y").OneOf("A", "B")` succeeds on the response header `Y: A`, by C22. -/
theorem expectHeaders_OneOf_needs_bound_header_witness :
    (hit.expectHeaders.OneOf id exampleLib ⟨⟨[]⟩, hit.defaultExpect, ""⟩ [.str "A", .str "B"] =
      .error "OneOf can only be used if a header was already specified") ∧
    ∃ step : hit.IStep,
      hit.expectHeaders.OneOf id exampleLib ⟨⟨[]⟩, hit.defaultExpect, "Y"⟩
        [.str "A", .str "B"] = .ok step ∧
      step.exec ⟨[("Y", ["A"])]⟩ = .ok () :=
  ⟨(expectHeaders_OneOf_needs_bound_header id exampleLib ⟨⟨[]⟩, hit.defaultExpect, ""⟩
      [.str "A", .str "B"]).1 rfl,
   ((expectHeaders_OneOf_needs_bound_header id exampleLib ⟨⟨[]⟩, hit.defaultExpect, "Y"⟩
      [.str "A", .str "B"]).2 (by decide)).imp
      fun _ hs => ⟨hs.1, (hs.2 rfl ⟨[("Y", ["A"])]⟩).2 (by decide)⟩⟩

/-- C23. `Contains(nil, nil)` is `true`, and for a haystack whose kind is none of string,
slice, map and struct the result is `true` only when haystack and needle are both nil. -/
theorem Contains_nil_nil_only_true_case (lib : Lib) (h n : Value)
    (hk : h.Kind ≠ Kind.String ∧ h.Kind ≠ Kind.Slice ∧ h.Kind ≠ Kind.Map ∧
      h.Kind ≠ Kind.Struct) :
    internal.Contains lib .nil .nil = true ∧
    (internal.Contains lib h n = true ↔ h = .nil ∧ n = .nil) := by
  refine ⟨rfl, ?_⟩
  constructor
  · intro hc
    cases hh : h.isNil
    · cases hn : n.isNil
      · rw [Contains_of_not_nil lib h n hh hn] at hc
        cases h <;> simp_all [Value.Kind]
      · simp [internal.Contains, hh, hn] at hc
    · cases hn : n.isNil
      · simp [internal.Contains, hh, hn] at hc
      · constructor
        · cases h <;> simp_all [Value.isNil]
        · cases n <;> simp_all [Value.isNil]
  · rintro ⟨rfl, rfl⟩
    rfl

/-- Both nil gives `true`, and an integer haystack gives `false` for the same integer as
needle, by C23. -/
theorem Contains_nil_nil_only_true_case_witness :
    internal.Contains exampleLib .nil .nil = true ∧
    ¬ internal.Contains exampleLib (.int 5) (.int 5) = true :=
  ⟨(Contains_nil_nil_only_true_case exampleLib .nil .nil (by decide)).1,
   fun hc => by
    have := ((Contains_nil_nil_only_true_case exampleLib (.int 5) (.int 5)
      (by decide)).2.1 hc).1
    cases this⟩

end GoHit
